import Mathlib

/-!
# The auto-detecting (maybe-TLS) crypto socket of vespalib

A shallow embedding of `vespalib/net/tls/maybe_tls_crypto_socket.cpp`, and of
the function `splitArg` of `searchcore/src/apps/vespa-gen-testdocs`.

* Pointers into memory become lists of bytes; `size_t` is `Nat` and `ssize_t`
  is `Int` (a byte sequence held in memory has fewer than `2^63` elements, so
  the conversions between the two are exact).  The one narrowing the source
  performs, `int drain_result = drain(buf, len)`, is kept as `toInt32`.
* The collaborators whose code is not part of the sources (the raw
  connection, the staging buffer, the TLS engine, the protocol sniffer) are
  modelled from the specification; each such definition says so.
* `SNOOP_SIZE`, `EWOULDBLOCK` and `EAGAIN` come from headers that are not part
  of the sources; they are parameters (`Constants`).
-/

namespace vespalib

/-- One byte of the stream. -/
abbrev Byte := Fin 256

/-- Constants the source takes from headers outside the sources:
`SNOOP_SIZE = net::tls::snooping::min_header_bytes_to_observe()` and the two
`errno` codes `is_blocked` compares with. -/
structure Constants where
  SNOOP_SIZE : Nat
  EWOULDBLOCK : Int
  EAGAIN : Int
  deriving DecidableEq

/-- Modelled from the spec: `CryptoSocket::HandshakeResult` (crypto_socket.h is
not among the sources), the four answers of one handshake step. -/
inductive HandshakeResult
  | FAIL
  | DONE
  | NEED_READ
  | NEED_WRITE
  deriving DecidableEq

/-- The conversion of an integer value to the 32-bit `int` of the source
(two's complement wrap-around). -/
def toInt32 (x : Int) : Int :=
  (x + 2147483648) % 4294967296 - 2147483648

/-! ## The raw connection -/

/-- What one `read` on the raw connection does, as decided by the peer and the
network: deliver bytes (at most `atMost + 1` of them, fewer when the caller
asks for fewer or the peer has sent fewer), or fail with an `errno`. -/
inductive ReadOutcome
  | data (atMost : Nat)
  | error (errno : Int)
  deriving DecidableEq

/-- What one `write` on the raw connection does: accept at most `atMost + 1`
bytes, or fail with an `errno`. -/
inductive WriteOutcome
  | accept (atMost : Nat)
  | error (errno : Int)
  deriving DecidableEq

/-- Modelled from the spec: `SocketHandle` (socket_handle.h is not among the
sources), the raw connection collaborator with non-blocking `read`/`write`,
distinguished would-block and hard-error results and a stable descriptor.

* `incoming` is everything the peer sends that has not been read yet;
* `script` fixes how the coming reads are fragmented, block or fail; when it
  is used up a read delivers all that fits;
* `errno` is the calling thread's `errno` as the calls leave it;
* `reads` logs the length each `read` call asked for, oldest first;
* `wscript` and `written` do for `write` what `script` and `incoming` do for
  `read`. -/
structure SocketHandle where
  fd : Int
  incoming : List Byte
  script : List ReadOutcome
  errno : Int
  reads : List Nat
  wscript : List WriteOutcome
  written : List Byte
  deriving DecidableEq

/-- The result of `SocketHandle::read`: the returned count, the bytes stored
at the start of the caller's buffer, and the connection afterwards. -/
structure ReadResult where
  res : Int
  data : List Byte
  socket : SocketHandle
  deriving DecidableEq

/-- Modelled from the spec: `SocketHandle::read(buf, len)`.  A failing read
returns `-1` and sets `errno`; any other read delivers a chunk of the incoming
bytes, `0` bytes meaning that `len` is `0` or that the stream has ended. -/
def SocketHandle.read (s : SocketHandle) (len : Nat) : ReadResult :=
  match s.script with
  | ReadOutcome.error e :: rest =>
    { res := -1, data := [],
      socket := { s with script := rest, errno := e, reads := s.reads ++ [len] } }
  | ReadOutcome.data k :: rest =>
    { res := ((s.incoming.take (min len (k + 1))).length : Nat),
      data := s.incoming.take (min len (k + 1)),
      socket := { s with incoming := s.incoming.drop (min len (k + 1)), script := rest,
                         reads := s.reads ++ [len] } }
  | [] =>
    { res := ((s.incoming.take len).length : Nat),
      data := s.incoming.take len,
      socket := { s with incoming := s.incoming.drop len, reads := s.reads ++ [len] } }

/-- The result of `SocketHandle::write`. -/
structure WriteResult where
  res : Int
  socket : SocketHandle
  deriving DecidableEq

/-- Modelled from the spec: `SocketHandle::write(buf, len)`.  A failing write
returns `-1` and sets `errno`; any other write takes a leading part of the
`len` bytes of `buf`. -/
def SocketHandle.write (s : SocketHandle) (buf : List Byte) (len : Nat) : WriteResult :=
  match s.wscript with
  | WriteOutcome.error e :: rest =>
    { res := -1, socket := { s with wscript := rest, errno := e } }
  | WriteOutcome.accept k :: rest =>
    { res := (((buf.take len).take (k + 1)).length : Nat),
      socket := { s with wscript := rest, written := s.written ++ (buf.take len).take (k + 1) } }
  | [] =>
    { res := ((buf.take len).length : Nat),
      socket := { s with written := s.written ++ buf.take len } }

/-! ## The staging buffer -/

/-- Modelled from the spec: `SmartBuffer` (vespalib/data/smart_buffer.h is not
among the sources), the growable FIFO byte store with `reserve`/`commit` on
the producer side and `obtain`/`evict` on the consumer side.  `data` is the
readable region (committed bytes that are not evicted, oldest first) and
`free` the size of the writable region behind it. -/
structure SmartBuffer where
  data : List Byte
  free : Nat
  deriving DecidableEq

/-- Modelled from the spec: `SmartBuffer(initial_size)`: an empty store with
`initial_size` writable bytes. -/
def SmartBuffer.create (initial_size : Nat) : SmartBuffer :=
  { data := [], free := initial_size }

/-- Modelled from the spec: `reserve(n)`: the store grows until `n` bytes are
writable; the answer is the writable region, whose size is the `free` of the
result. -/
def SmartBuffer.reserve (b : SmartBuffer) (bytes : Nat) : SmartBuffer :=
  { b with free := max b.free bytes }

/-- Modelled from the spec: `commit(n)`: the first `n` bytes written into the
writable region (`region`) become readable. -/
def SmartBuffer.commit (b : SmartBuffer) (region : List Byte) (bytes : Nat) : SmartBuffer :=
  { data := b.data ++ region.take bytes, free := b.free - bytes }

/-- Modelled from the spec: `obtain()`: the readable region. -/
def SmartBuffer.obtain (b : SmartBuffer) : List Byte :=
  b.data

/-- Modelled from the spec: `evict(n)`: the first `n` readable bytes leave the
store. -/
def SmartBuffer.evict (b : SmartBuffer) (bytes : Nat) : SmartBuffer :=
  { b with data := b.data.drop bytes }

/-! ## The protocol sniffer -/

/-- Modelled from the spec: `net::tls::snooping::TlsSnoopingResult`
(protocol_snooping.h is not among the sources): the sniffer's two verdicts. -/
inductive TlsSnoopingResult
  | ProbablyTls
  | NotTls
  deriving DecidableEq

/-- Modelled from the spec: `net::tls::snooping::snoop_client_hello_header`
(protocol_snooping.h is not among the sources).  Looks-like-TLS iff byte 0 is
the handshake content type `0x16`, byte 1 the major version `0x03` and byte 2
a minor version in `0x00..0x04`; a sequence shorter than three bytes never
looks like TLS. -/
def snoop_client_hello_header (buf : List Byte) : TlsSnoopingResult :=
  match buf with
  | b0 :: b1 :: b2 :: _ =>
    if b0 = 0x16 ∧ b1 = 0x03 ∧ b2 ≤ 0x04 then TlsSnoopingResult.ProbablyTls
    else TlsSnoopingResult.NotTls
  | _ => TlsSnoopingResult.NotTls

/-! ## The TLS variant -/

/-- Modelled from the spec: `TlsCryptoSocket` (tls_crypto_socket.h is not
among the sources), the TLS variant of the socket contract: the connection it
owns, its role, the bytes injected as already received, and the handshake
state private to the TLS engine. -/
structure TlsCryptoSocket where
  socket : SocketHandle
  is_server : Bool
  injected : List Byte
  progress : Nat
  deriving DecidableEq

/-- Modelled from the spec: `TlsCryptoEngine`, the TLS-engine factory.  What a
handshake step of a socket it made does is the engine's business: any
function may stand here. -/
structure TlsCryptoEngine where
  handshake : TlsCryptoSocket → HandshakeResult × TlsCryptoSocket

/-- Modelled from the spec: `create_tls_crypto_socket(socket, is_server)`: the
construction call that takes the raw connection and the role flag. -/
def TlsCryptoEngine.create_tls_crypto_socket (_e : TlsCryptoEngine) (socket : SocketHandle)
    (is_server : Bool) : TlsCryptoSocket :=
  { socket := socket, is_server := is_server, injected := [], progress := 0 }

/-- Modelled from the spec: `inject_read_data(buf, len)`: seeds the TLS variant
with `len` bytes already consumed from the wire. -/
def TlsCryptoSocket.inject_read_data (t : TlsCryptoSocket) (buf : List Byte) (len : Nat) :
    TlsCryptoSocket :=
  { t with injected := t.injected ++ buf.take len }

/-! ## MyCryptoSocket -/

/-- The fields of `MyCryptoSocket`; the reference `_self` to the owner's slot
is the `CryptoSocket` that `handshake` answers. -/
structure MyCryptoSocket where
  _socket : SocketHandle
  _factory : Option TlsCryptoEngine
  _buffer : SmartBuffer

/-- What the owner's slot (`CryptoSocket::UP`) holds: the detecting socket, or
the TLS variant that replaced it (with the engine that runs it). -/
inductive CryptoSocket
  | detecting (s : MyCryptoSocket)
  | tls (engine : TlsCryptoEngine) (t : TlsCryptoSocket)

/-- The method `is_blocked(res, error)`: a negative result whose error says
that the read would block. -/
def is_blocked (c : Constants) (res : Int) (error : Int) : Bool :=
  decide (res < 0) && (decide (error = c.EWOULDBLOCK) || decide (error = c.EAGAIN))

/-- The method `looksLikeTlsToMe(buf)`: the sniffer answers `ProbablyTls`. -/
def looksLikeTlsToMe (buf : List Byte) : Bool :=
  decide (snoop_client_hello_header buf = TlsSnoopingResult.ProbablyTls)

/-- The constructor of `MyCryptoSocket`: `none` when one of its two assertions
on `SNOOP_SIZE` fails. -/
def MyCryptoSocket.create (c : Constants) (socket : SocketHandle)
    (tls_engine : Option TlsCryptoEngine) : Option MyCryptoSocket :=
  if 0 < c.SNOOP_SIZE ∧ c.SNOOP_SIZE ≤ 8 then
    some { _socket := socket, _factory := tls_engine, _buffer := SmartBuffer.create 4096 }
  else none

/-- The method `get_fd()`. -/
def MyCryptoSocket.get_fd (self : MyCryptoSocket) : Int :=
  self._socket.fd

/-- Lines 48 to 60 of `handshake()`: what happens once the raw read has not
failed, with the connection and the staging buffer as the read left them. -/
def MyCryptoSocket.classify (c : Constants) (factory : TlsCryptoEngine) (socket : SocketHandle)
    (buffer : SmartBuffer) : HandshakeResult × CryptoSocket :=
  let src := buffer.obtain
  if src.length < c.SNOOP_SIZE then
    (HandshakeResult.NEED_READ,
      CryptoSocket.detecting { _socket := socket, _factory := some factory, _buffer := buffer })
  else if looksLikeTlsToMe src then
    let tls_socket := factory.create_tls_crypto_socket socket true
    let tls_socket := tls_socket.inject_read_data src src.length
    let step := factory.handshake tls_socket
    (step.1, CryptoSocket.tls factory step.2)
  else
    (HandshakeResult.DONE,
      CryptoSocket.detecting { _socket := socket, _factory := none, _buffer := buffer })

/-- The method `handshake()`: the answer and what the owner's slot holds
afterwards. -/
def MyCryptoSocket.handshake (c : Constants) (self : MyCryptoSocket) :
    HandshakeResult × CryptoSocket :=
  match self._factory with
  | some factory =>
    let dst := self._buffer.reserve c.SNOOP_SIZE
    let rd := self._socket.read dst.free
    if 0 < rd.res then
      MyCryptoSocket.classify c factory rd.socket (dst.commit rd.data rd.res.toNat)
    else if !is_blocked c rd.res rd.socket.errno then
      (HandshakeResult.FAIL,
        CryptoSocket.detecting { _socket := rd.socket, _factory := some factory, _buffer := dst })
    else
      MyCryptoSocket.classify c factory rd.socket dst
  | none => (HandshakeResult.DONE, CryptoSocket.detecting self)

/-- The method `min_read_buffer_size()`. -/
def MyCryptoSocket.min_read_buffer_size (_self : MyCryptoSocket) : Nat := 1

/-- The result of `read`, `drain` and `write`: the returned count, the bytes
the call stored at the start of the caller's buffer, and the socket
afterwards. -/
structure IoResult where
  res : Int
  buf : List Byte
  self : MyCryptoSocket

/-- The method `drain(buf, len)`. -/
def MyCryptoSocket.drain (self : MyCryptoSocket) (len : Nat) : IoResult :=
  let src := self._buffer.obtain
  let frame := min len src.length
  if 0 < frame then
    { res := (frame : Nat), buf := src.take frame,
      self := { self with _buffer := self._buffer.evict frame } }
  else
    { res := (frame : Nat), buf := [], self := self }

/-- The method `read(buf, len)`.  The raw read stores its bytes at the start of `buf`,
over whatever `drain` stored there. -/
def MyCryptoSocket.read (self : MyCryptoSocket) (len : Nat) : IoResult :=
  let drained := self.drain len
  let drain_result := toInt32 drained.res
  if drain_result ≠ 0 then
    { res := drain_result, buf := drained.buf, self := drained.self }
  else
    let rd := drained.self._socket.read len
    { res := rd.res, buf := rd.data ++ drained.buf.drop rd.data.length,
      self := { drained.self with _socket := rd.socket } }

/-- The method `write(buf, len)`. -/
def MyCryptoSocket.write (self : MyCryptoSocket) (buf : List Byte) (len : Nat) : IoResult :=
  let wr := self._socket.write buf len
  { res := wr.res, buf := [], self := { self with _socket := wr.socket } }

/-- The method `flush()`. -/
def MyCryptoSocket.flush (self : MyCryptoSocket) : IoResult :=
  { res := 0, buf := [], self := self }

/-! ## The owner of the socket -/

/-- The owner calling `handshake()` a number of times in a row, whatever the
answers are: the detecting socket after the calls, `none` once the slot holds
the TLS variant. -/
def handshakeTimes (c : Constants) : Nat → MyCryptoSocket → Option MyCryptoSocket
  | 0, s => some s
  | n + 1, s =>
    match (s.handshake c).2 with
    | CryptoSocket.detecting s' => handshakeTimes c n s'
    | CryptoSocket.tls _ _ => none

/-- The owner's handshake loop: `handshake()` is called again after each
`NEED_READ`, at most `fuel` times.  The answer is the socket at the moment
`handshake()` returns `DONE` with the detecting socket still in the slot, and
`none` in every other case. -/
def handshakeUntilDone (c : Constants) : Nat → MyCryptoSocket → Option MyCryptoSocket
  | 0, _ => none
  | fuel + 1, s =>
    match s.handshake c with
    | (HandshakeResult.DONE, CryptoSocket.detecting s') => some s'
    | (HandshakeResult.NEED_READ, CryptoSocket.detecting s') => handshakeUntilDone c fuel s'
    | _ => none

/-- One call of the owner after the handshake. -/
inductive Call
  | read (len : Nat)
  | drain (len : Nat)
  deriving DecidableEq

/-- The `len` argument of a call. -/
def Call.len : Call → Nat
  | Call.read len => len
  | Call.drain len => len

/-- Performing a call. -/
def Call.run (s : MyCryptoSocket) : Call → IoResult
  | Call.read len => s.read len
  | Call.drain len => s.drain len

/-- The bytes a call delivers to its caller: the first `res` bytes of the
buffer, none when `res` is not positive. -/
def IoResult.delivered (r : IoResult) : List Byte :=
  r.buf.take r.res.toNat

/-- What the owner has seen after a sequence of calls: the delivered bytes in
call order, whether a `read` has reported the end of the stream (returned 0),
and the socket afterwards. -/
structure Observed where
  out : List Byte
  eof : Bool
  self : MyCryptoSocket

/-- Performing a sequence of `read`/`drain` calls. -/
def runCalls : List Call → MyCryptoSocket → Observed
  | [], s => { out := [], eof := false, self := s }
  | call :: rest, s =>
    let r := call.run s
    let o := runCalls rest r.self
    { out := r.delivered ++ o.out,
      eof := (match call with
              | Call.read _ => decide (r.res = 0)
              | Call.drain _ => false) || o.eof,
      self := o.self }

/-- The bytes that are still to be delivered: the staged ones, then the ones
the connection has not handed out yet. -/
def MyCryptoSocket.pending (s : MyCryptoSocket) : List Byte :=
  s._buffer.data ++ s._socket.incoming

/-- A fresh connection: the peer sends `sent`, the reads follow `script`. -/
def SocketHandle.connected (sent : List Byte) (script : List ReadOutcome) : SocketHandle :=
  { fd := 7, incoming := sent, script := script, errno := 0, reads := [],
    wscript := [], written := [] }

/-- The constants of a Linux host with a three-byte snooping window. -/
def linux3 : Constants := { SNOOP_SIZE := 3, EWOULDBLOCK := 11, EAGAIN := 11 }

/-- A TLS engine whose handshake step asks for more input. -/
def needyEngine : TlsCryptoEngine :=
  { handshake := fun t => (HandshakeResult.NEED_READ, { t with progress := t.progress + 1 }) }

/-- The start of a TLS client hello (scenario A of the specification). -/
def clientHello : List Byte := [0x16, 0x03, 0x01, 0x00, 0x05, 0xAA, 0xBB, 0xCC, 0xDD, 0xEE]

/-- The start of a plaintext request (scenario B of the specification). -/
def httpGet : List Byte := [0x47, 0x45, 0x54, 0x20, 0x2F]

/-- A detecting socket as the constructor makes it, over a fresh connection. -/
def detectingSocket (sent : List Byte) (script : List ReadOutcome) : MyCryptoSocket :=
  { _socket := SocketHandle.connected sent script, _factory := some needyEngine,
    _buffer := SmartBuffer.create 4096 }

/-- The socket `detectingSocket httpGet [data 2]` after one `handshake()`
call: Plain state (not-TLS verdict, the factory is gone) with three bytes
staged and two more to come from the connection. -/
def plainSocket : MyCryptoSocket :=
  { _socket := { fd := 7, incoming := [0x20, 0x2F], script := [], errno := 0, reads := [4096],
                 wscript := [], written := [] },
    _factory := none,
    _buffer := { data := [0x47, 0x45, 0x54], free := 4093 } }

/-- The socket `detectingSocket httpGet [data 1, data 2]` after two
`handshake()` calls: all five bytes staged, not-TLS verdict. -/
def stagedGet : MyCryptoSocket :=
  { _socket := { fd := 7, incoming := [], script := [], errno := 0, reads := [4096, 4094],
                 wscript := [], written := [] },
    _factory := none,
    _buffer := { data := [0x47, 0x45, 0x54, 0x20, 0x2F], free := 4091 } }

/-- A Detecting socket with two bytes staged whose peer has closed the
connection: `detectingSocket [0x16, 0x03] [data 1]` after one `handshake()`
call. -/
def closedEarly : MyCryptoSocket :=
  { _socket := { fd := 7, incoming := [], script := [], errno := 0, reads := [4096],
                 wscript := [], written := [] },
    _factory := some needyEngine,
    _buffer := { data := [0x16, 0x03], free := 4094 } }

/-- A socket in Plain state whose raw connection will refuse the next write
(`EPIPE`). -/
def brokenPipe : MyCryptoSocket :=
  { _socket := { fd := 7, incoming := [], script := [], errno := 0, reads := [4096],
                 wscript := [WriteOutcome.error 32], written := [] },
    _factory := none,
    _buffer := { data := [0x47, 0x45, 0x54], free := 4093 } }

/-- How detection ends for the owner. -/
inductive Verdict
  | upgraded
  | plain
  | failed
  | undecided
  deriving DecidableEq

/-- The owner's handshake loop, at most `fuel` calls, watched for its verdict:
`upgraded` when a call puts the TLS variant in the slot, `plain` when a call
answers `DONE` with the detecting socket still in the slot, `failed` on any
other answer than `NEED_READ`, `undecided` when the calls are used up. -/
def detect (c : Constants) : Nat → MyCryptoSocket → Verdict
  | 0, _ => Verdict.undecided
  | fuel + 1, s =>
    match s.handshake c with
    | (_, CryptoSocket.tls _ _) => Verdict.upgraded
    | (HandshakeResult.DONE, CryptoSocket.detecting _) => Verdict.plain
    | (HandshakeResult.NEED_READ, CryptoSocket.detecting s') => detect c fuel s'
    | (_, CryptoSocket.detecting _) => Verdict.failed

/-! ## vespa-gen-testdocs: splitArg -/

/-- Modelled from the spec: `vespalib::string` (vespalib/stllike/string.h is not
among the sources; the specification is silent about it, so its `find` and
`substr` follow the contract of `std::string`): a sequence of characters. -/
abbrev string := List Char

/-- The scan behind `find`: the index of the first `c` in `s`, when the first
character of `s` has index `i`; `none` when `c` does not occur. -/
def string.scan (c : Char) : List Char → Nat → Option Nat
  | [], _ => none
  | x :: xs, i => if x = c then some i else string.scan c xs (i + 1)

/-- Modelled from the spec: `string::find(c, pos)`: the index of the first `c`
at or after `pos`, `none` standing for `npos`. -/
def string.find (s : string) (c : Char) (pos : Nat) : Option Nat :=
  string.scan c (s.drop pos) pos

/-- Modelled from the spec: `string::substr(pos, n)`: the `n` characters from
`pos` on, or all of them to the end when fewer are left or `n` is `npos`
(`none`). -/
def string.substr (s : string) (pos : Nat) (n : Option Nat) : string :=
  match n with
  | some n => (s.drop pos).take n
  | none => s.drop pos

end vespalib

namespace gentestdocs

open vespalib (string)

/-- The `for (;;)` loop of `splitArg` with the statement that follows it, on
the local variables `pos` and `argv`; `none` when more than `fuel` iterations
would be needed. -/
def splitArg.loop (arg : string) : Nat → Nat → List string → Option (List string)
  | 0, _, _ => none
  | fuel + 1, pos, argv =>
    match string.find arg ',' pos with
    | none => some (argv ++ [string.substr arg pos none])
    | some found =>
      splitArg.loop arg fuel (found + 1) (argv ++ [string.substr arg pos (some (found - pos))])

/-- The function `splitArg(arg)`.  Every iteration moves `pos` beyond one
character of `arg`, so `arg.length + 1` iterations are enough. -/
def splitArg (arg : string) : Option (List string) :=
  splitArg.loop arg (arg.length + 1) 0 []

end gentestdocs

namespace vespalib

/-! ## The raw connection: basic facts -/


theorem SocketHandle.read_cases (s : SocketHandle) (len : Nat) :
    ((s.read len).res = -1 ∧ (s.read len).data = [] ∧
        (s.read len).socket.incoming = s.incoming) ∨
    (∃ k, (s.read len).res = ((s.incoming.take k).length : Nat) ∧
        (s.read len).data = s.incoming.take k ∧
        (s.read len).socket.incoming = s.incoming.drop k ∧ k ≤ len ∧ (0 < len → 0 < k)) := by
  unfold SocketHandle.read
  split
  · left; simp
  · rename_i k rest _
    right
    refine ⟨min len (k + 1), rfl, rfl, rfl, Nat.min_le_left _ _, fun h => ?_⟩
    omega
  · right
    exact ⟨len, rfl, rfl, rfl, le_refl _, fun h => h⟩

theorem SocketHandle.read_reads (s : SocketHandle) (len : Nat) :
    (s.read len).socket.reads = s.reads ++ [len] := by
  unfold SocketHandle.read
  split <;> rfl

theorem SocketHandle.read_data_incoming (s : SocketHandle) (len : Nat) :
    (s.read len).data ++ (s.read len).socket.incoming = s.incoming := by
  rcases s.read_cases len with ⟨_, h2, h3⟩ | ⟨k, _, h2, h3, _⟩
  · rw [h2, h3]; rfl
  · rw [h2, h3]; exact List.take_append_drop k s.incoming

theorem SocketHandle.read_take_res (s : SocketHandle) (len : Nat) :
    (s.read len).data.take (s.read len).res.toNat = (s.read len).data := by
  rcases s.read_cases len with ⟨_, h2, _⟩ | ⟨k, h1, h2, _⟩
  · rw [h2]; exact List.take_nil
  · rw [h1, h2, Int.toNat_ofNat]; exact List.take_length _

theorem SocketHandle.read_nonneg_length (s : SocketHandle) (len : Nat)
    (h : 0 ≤ (s.read len).res) : (s.read len).res = ((s.read len).data.length : Nat) := by
  rcases s.read_cases len with ⟨h1, _⟩ | ⟨k, h1, h2, _⟩
  · rw [h1] at h; omega
  · rw [h1, h2]

theorem SocketHandle.read_length_le (s : SocketHandle) (len : Nat) :
    (s.read len).data.length ≤ len := by
  rcases s.read_cases len with ⟨_, h2, _⟩ | ⟨k, _, h2, _, hk, _⟩
  · rw [h2]; exact Nat.zero_le _
  · rw [h2, List.length_take]; omega

theorem SocketHandle.read_eof (s : SocketHandle) (len : Nat) (hlen : 0 < len)
    (h : (s.read len).res = 0) : (s.read len).socket.incoming = [] ∧ s.incoming = [] := by
  rcases s.read_cases len with ⟨h1, _⟩ | ⟨k, h1, _, h3, _, hk⟩
  · rw [h1] at h; omega
  · rw [h1] at h
    have hk0 := hk hlen
    have hl : (s.incoming.take k).length = 0 := by exact_mod_cast h
    rw [List.length_take] at hl
    have : s.incoming.length = 0 := by omega
    have hnil : s.incoming = [] := List.length_eq_zero.mp this
    rw [h3, hnil]; simp

theorem SocketHandle.read_neg_incoming (s : SocketHandle) (len : Nat)
    (h : (s.read len).res < 0) : (s.read len).socket.incoming = s.incoming := by
  rcases s.read_cases len with ⟨_, _, h3⟩ | ⟨k, h1, _⟩
  · exact h3
  · rw [h1] at h; omega

theorem is_blocked_neg (c : Constants) (res error : Int)
    (h : is_blocked c res error = true) : res < 0 := by
  unfold is_blocked at h
  simp only [Bool.and_eq_true, decide_eq_true_eq] at h
  exact h.1

/-! ## C2: the sniffer -/

/-- C2: `looksLikeTlsToMe` answers looks-like-TLS exactly for the byte sequences
whose byte 0 is 0x16, byte 1 is 0x03 and byte 2 lies in 0x00..0x04, and not-TLS
for every other sequence; each sequence gets one of the two answers. -/
theorem looksLikeTlsToMe_iff (buf : List Byte) :
    (looksLikeTlsToMe buf = true ↔
        ∃ v rest, buf = 0x16 :: 0x03 :: v :: rest ∧ v ≤ 0x04) ∧
    (looksLikeTlsToMe buf = false ↔
        ¬ ∃ v rest, buf = 0x16 :: 0x03 :: v :: rest ∧ v ≤ 0x04) := by
  have key : looksLikeTlsToMe buf = true ↔
      ∃ v rest, buf = 0x16 :: 0x03 :: v :: rest ∧ v ≤ 0x04 := by
    unfold looksLikeTlsToMe snoop_client_hello_header
    split
    · rename_i b0 b1 b2 rest
      by_cases h : b0 = 0x16 ∧ b1 = 0x03 ∧ b2 ≤ 0x04
      · simp only [h, and_self, if_true, decide_True, true_iff]
        obtain ⟨h0, h1, h2⟩ := h
        exact ⟨b2, rest, rfl, h2⟩
      · simp only [h, if_false]
        constructor
        · intro hc; simp at hc
        · rintro ⟨v, r, heq, hv⟩
          simp only [List.cons.injEq] at heq
          obtain ⟨h0, h1, h2, _⟩ := heq
          exact absurd ⟨h0, h1, h2 ▸ hv⟩ h
    · rename_i hshort
      constructor
      · intro hc; simp at hc
      · rintro ⟨v, r, heq, _⟩
        exact absurd heq (hshort _ _ _ _)
  refine ⟨key, ?_⟩
  rw [← key]
  cases looksLikeTlsToMe buf <;> simp


/-! ## One handshake step -/

theorem MyCryptoSocket.handshake_none (c : Constants) (self : MyCryptoSocket)
    (hf : self._factory = none) :
    self.handshake c = (HandshakeResult.DONE, CryptoSocket.detecting self) := by
  unfold MyCryptoSocket.handshake
  rw [hf]

theorem handshakeTimes_none (c : Constants) (n : Nat) (self : MyCryptoSocket)
    (hf : self._factory = none) : handshakeTimes c n self = some self := by
  induction n with
  | zero => rfl
  | succ n ih =>
    unfold handshakeTimes
    rw [MyCryptoSocket.handshake_none c self hf]
    exact ih

/-- The staging buffer with which `handshake()` reaches line 48 when the raw
read has not failed. -/
theorem MyCryptoSocket.handshake_some (c : Constants) (self : MyCryptoSocket)
    (factory : TlsCryptoEngine) (rd : ReadResult)
    (hf : self._factory = some factory)
    (hrd : rd = self._socket.read (self._buffer.reserve c.SNOOP_SIZE).free)
    (hread : 0 < rd.res ∨ is_blocked c rd.res rd.socket.errno = true) :
    ∃ buffer : SmartBuffer,
      buffer.data = (if 0 < rd.res then self._buffer.data ++ rd.data else self._buffer.data) ∧
      self.handshake c = MyCryptoSocket.classify c factory rd.socket buffer := by
  unfold MyCryptoSocket.handshake
  rw [hf]
  simp only [← hrd]
  by_cases hpos : 0 < rd.res
  · refine ⟨(self._buffer.reserve c.SNOOP_SIZE).commit rd.data rd.res.toNat, ?_, ?_⟩
    · rw [if_pos hpos, hrd]
      simp only [SmartBuffer.commit, SmartBuffer.reserve, SocketHandle.read_take_res]
    · rw [if_pos hpos]
  · have hb : is_blocked c rd.res rd.socket.errno = true := hread.resolve_left hpos
    refine ⟨self._buffer.reserve c.SNOOP_SIZE, ?_, ?_⟩
    · rw [if_neg hpos]; rfl
    · rw [if_neg hpos, hb]; rfl

/-! ## C3: upgrade -/

/-- C3: when `handshake()` has at least `SNOOP_SIZE` bytes staged after its raw
read and the sniffer answers looks-like-TLS, the owner's slot afterwards holds
the TLS variant the factory made over the same raw connection in the server
role, injected with exactly the staged bytes (which, followed by what the
connection has not handed out, are the bytes that were pending before the
call), and the answer is that of this TLS variant's `handshake()`. -/
theorem handshake_upgrade (c : Constants) (self : MyCryptoSocket) (factory : TlsCryptoEngine)
    (rd : ReadResult) (staged : List Byte)
    (hf : self._factory = some factory)
    (hrd : rd = self._socket.read (self._buffer.reserve c.SNOOP_SIZE).free)
    (hread : 0 < rd.res ∨ is_blocked c rd.res rd.socket.errno = true)
    (hstaged : staged = if 0 < rd.res then self._buffer.data ++ rd.data else self._buffer.data)
    (hK : c.SNOOP_SIZE ≤ staged.length)
    (htls : looksLikeTlsToMe staged = true) :
    ∃ tls_socket : TlsCryptoSocket,
      tls_socket = (factory.create_tls_crypto_socket rd.socket true).inject_read_data
                      staged staged.length ∧
      tls_socket.socket = rd.socket ∧ tls_socket.is_server = true ∧
      tls_socket.injected = staged ∧
      tls_socket.injected ++ tls_socket.socket.incoming =
        self._buffer.data ++ self._socket.incoming ∧
      self.handshake c =
        ((factory.handshake tls_socket).1,
          CryptoSocket.tls factory (factory.handshake tls_socket).2) := by
  obtain ⟨buffer, hdata, hstep⟩ := MyCryptoSocket.handshake_some c self factory rd hf hrd hread
  rw [← hstaged] at hdata
  refine ⟨_, rfl, rfl, rfl, ?_, ?_, ?_⟩
  · simp [TlsCryptoSocket.inject_read_data, TlsCryptoEngine.create_tls_crypto_socket]
  · simp only [TlsCryptoSocket.inject_read_data, TlsCryptoEngine.create_tls_crypto_socket,
      List.nil_append, List.take_length]
    rw [hstaged]
    split
    · rw [List.append_assoc, hrd, SocketHandle.read_data_incoming]
    · rename_i hnp
      have hneg : rd.res < 0 := is_blocked_neg c _ _ (hread.resolve_left hnp)
      rw [hrd] at hneg ⊢
      rw [SocketHandle.read_neg_incoming _ _ hneg]
  · rw [hstep]
    unfold MyCryptoSocket.classify
    simp only [SmartBuffer.obtain, hdata]
    rw [if_neg (by omega), if_pos htls]


theorem handshake_upgrade_witness :
    ((detectingSocket clientHello [ReadOutcome.data 2]).handshake linux3).1 =
      HandshakeResult.NEED_READ := by
  obtain ⟨t, -, -, -, -, -, hstep⟩ :=
    handshake_upgrade linux3 (detectingSocket clientHello [ReadOutcome.data 2]) needyEngine _
      [0x16, 0x03, 0x01] rfl rfl (Or.inl (by decide)) (by decide) (by decide) (by decide)
  rw [hstep]
  rfl

/-! ## C4: no factory -/

/-- C4: a socket constructed without a TLS-engine factory answers `DONE` to the
first and to every later `handshake()` call; after any number of calls the raw
connection is the one handed to the constructor (nothing taken from the peer,
no read logged) and the staging buffer is empty. -/
theorem handshake_without_factory (c : Constants) (socket : SocketHandle) (s₀ : MyCryptoSocket)
    (hnew : MyCryptoSocket.create c socket none = some s₀) (n : Nat) :
    s₀.handshake c = (HandshakeResult.DONE, CryptoSocket.detecting s₀) ∧
    handshakeTimes c n s₀ = some s₀ ∧
    s₀._socket = socket ∧ s₀._socket.reads = socket.reads ∧
    s₀._socket.incoming = socket.incoming ∧ s₀._buffer.data = [] := by
  unfold MyCryptoSocket.create at hnew
  split at hnew
  · simp only [Option.some.injEq] at hnew
    subst hnew
    exact ⟨MyCryptoSocket.handshake_none c _ rfl, handshakeTimes_none c n _ rfl,
      rfl, rfl, rfl, rfl⟩
  · exact absurd hnew (by simp)

theorem handshake_without_factory_witness :
    handshakeTimes linux3 5
        { _socket := SocketHandle.connected httpGet [], _factory := none,
          _buffer := SmartBuffer.create 4096 } =
      some { _socket := SocketHandle.connected httpGet [], _factory := none,
             _buffer := SmartBuffer.create 4096 } :=
  (handshake_without_factory linux3 (SocketHandle.connected httpGet []) _ rfl 5).2.1

/-! ## C5: the not-TLS verdict -/

/-- C5: when `handshake()` has at least `SNOOP_SIZE` bytes staged after its raw
read and the sniffer answers not-TLS, the call answers `DONE`, the factory is
gone and every staged byte is still in the staging buffer; every later
`handshake()` call answers `DONE` and leaves the socket, its connection (no
read) and its staging buffer as they are, and no socket without a factory is
ever classified, whatever its staging buffer holds. -/
theorem handshake_not_tls_final (c : Constants) (self : MyCryptoSocket)
    (factory : TlsCryptoEngine) (rd : ReadResult) (staged : List Byte)
    (hf : self._factory = some factory)
    (hrd : rd = self._socket.read (self._buffer.reserve c.SNOOP_SIZE).free)
    (hread : 0 < rd.res ∨ is_blocked c rd.res rd.socket.errno = true)
    (hstaged : staged = if 0 < rd.res then self._buffer.data ++ rd.data else self._buffer.data)
    (hK : c.SNOOP_SIZE ≤ staged.length)
    (hnot : looksLikeTlsToMe staged = false) (n : Nat) :
    ∃ s' : MyCryptoSocket,
      self.handshake c = (HandshakeResult.DONE, CryptoSocket.detecting s') ∧
      s'._factory = none ∧ s'._buffer.data = staged ∧ s'._socket = rd.socket ∧
      s'.handshake c = (HandshakeResult.DONE, CryptoSocket.detecting s') ∧
      handshakeTimes c n s' = some s' ∧
      ∀ t : MyCryptoSocket, t._factory = none →
        t.handshake c = (HandshakeResult.DONE, CryptoSocket.detecting t) := by
  obtain ⟨buffer, hdata, hstep⟩ := MyCryptoSocket.handshake_some c self factory rd hf hrd hread
  rw [← hstaged] at hdata
  refine ⟨{ _socket := rd.socket, _factory := none, _buffer := buffer }, ?_, rfl, hdata, rfl,
    MyCryptoSocket.handshake_none c _ rfl, handshakeTimes_none c n _ rfl,
    fun t ht => MyCryptoSocket.handshake_none c t ht⟩
  rw [hstep]
  unfold MyCryptoSocket.classify
  simp only [SmartBuffer.obtain, hdata]
  rw [if_neg (by omega), hnot]
  rfl

theorem handshake_not_tls_final_witness :
    ∃ s' : MyCryptoSocket,
      (detectingSocket httpGet []).handshake linux3 =
        (HandshakeResult.DONE, CryptoSocket.detecting s') ∧
      s'._buffer.data = httpGet ∧ handshakeTimes linux3 4 s' = some s' := by
  obtain ⟨s', h1, -, h3, -, -, h6, -⟩ :=
    handshake_not_tls_final linux3 (detectingSocket httpGet []) needyEngine _ httpGet rfl rfl
      (Or.inl (by decide)) (by decide) (by decide) (by decide) 4
  exact ⟨s', h1, h3, h6⟩


/-! ## C7: drain, and one call of read -/

theorem toInt32_of_lt (n : Nat) (h : n < 2147483648) : toInt32 (n : Int) = (n : Int) := by
  unfold toInt32
  omega

theorem MyCryptoSocket.drain_pos (self : MyCryptoSocket) (len : Nat)
    (h : 0 < min len self._buffer.data.length) :
    self.drain len =
      { res := (min len self._buffer.data.length : Nat),
        buf := self._buffer.data.take (min len self._buffer.data.length),
        self := { self with
          _buffer := self._buffer.evict (min len self._buffer.data.length) } } := by
  unfold MyCryptoSocket.drain
  simp only [SmartBuffer.obtain]
  rw [if_pos h]

theorem MyCryptoSocket.drain_zero (self : MyCryptoSocket) (len : Nat)
    (h : min len self._buffer.data.length = 0) :
    self.drain len = { res := 0, buf := [], self := self } := by
  unfold MyCryptoSocket.drain
  simp only [SmartBuffer.obtain]
  rw [if_neg (by omega), h]
  rfl

/-- A `read` with a frame to deliver: the staged bytes are served and the raw
connection is left alone. -/
theorem MyCryptoSocket.read_staged (self : MyCryptoSocket) (len : Nat)
    (h : 0 < min len self._buffer.data.length)
    (hint : min len self._buffer.data.length < 2147483648) :
    self.read len =
      { res := (min len self._buffer.data.length : Nat),
        buf := self._buffer.data.take (min len self._buffer.data.length),
        self := { self with
          _buffer := self._buffer.evict (min len self._buffer.data.length) } } := by
  have hne : toInt32 ((min len self._buffer.data.length : Nat) : Int) ≠ 0 := by
    rw [toInt32_of_lt _ hint]; omega
  unfold MyCryptoSocket.read
  simp only [MyCryptoSocket.drain_pos self len h]
  rw [if_pos hne, toInt32_of_lt _ hint]

/-- A `read` without a frame to deliver: the call is the raw read. -/
theorem MyCryptoSocket.read_unstaged (self : MyCryptoSocket) (len : Nat)
    (h0 : min len self._buffer.data.length = 0) :
    self.read len =
      { res := (self._socket.read len).res, buf := (self._socket.read len).data,
        self := { self with _socket := (self._socket.read len).socket } } := by
  unfold MyCryptoSocket.read
  simp only [MyCryptoSocket.drain_zero self len h0]
  rw [if_neg (by decide)]
  simp

/-- C7: `drain(buf, len)` returns `min(len, staged)`, stores exactly the first
that many staged bytes in `buf`, in order, leaves the remaining staged bytes as
the staging buffer, and does not touch the raw connection or the factory; on an
empty staging buffer it returns 0 and the socket is unchanged. -/
theorem drain_spec (self : MyCryptoSocket) (len : Nat) :
    (self.drain len).res = (min len self._buffer.data.length : Nat) ∧
    (self.drain len).buf = self._buffer.data.take (min len self._buffer.data.length) ∧
    (self.drain len).self._buffer.data =
      self._buffer.data.drop (min len self._buffer.data.length) ∧
    (self.drain len).buf ++ (self.drain len).self._buffer.data = self._buffer.data ∧
    (self.drain len).self._socket = self._socket ∧
    (self.drain len).self._factory = self._factory ∧
    ({ self with _buffer := { self._buffer with data := [] } }.drain len).res = 0 ∧
    ({ self with _buffer := { self._buffer with data := [] } }.drain len).buf = [] ∧
    ({ self with _buffer := { self._buffer with data := [] } }.drain len).self =
      { self with _buffer := { self._buffer with data := [] } } := by
  have hempty : ∀ t : MyCryptoSocket, t._buffer.data = [] →
      t.drain len = { res := 0, buf := [], self := t } := fun t ht =>
    MyCryptoSocket.drain_zero t len (by rw [ht]; simp)
  have he := hempty { self with _buffer := { self._buffer with data := [] } } rfl
  rw [he]
  by_cases h : 0 < min len self._buffer.data.length
  · rw [MyCryptoSocket.drain_pos self len h]
    exact ⟨rfl, rfl, rfl, List.take_append_drop _ _, rfl, rfl, rfl, rfl, rfl⟩
  · have h0 : min len self._buffer.data.length = 0 := by omega
    rw [MyCryptoSocket.drain_zero self len h0, h0]
    exact ⟨rfl, rfl, rfl, rfl, rfl, rfl, rfl, rfl, rfl⟩


/-! ## The handshake steps that keep the detecting socket in the slot -/

/-- Every `handshake()` call that leaves the detecting socket in the slot is
one of four: no factory; a failed raw read; fewer than `SNOOP_SIZE` bytes
staged; the not-TLS verdict. -/
theorem MyCryptoSocket.handshake_detecting (c : Constants) (self s' : MyCryptoSocket)
    (r : HandshakeResult) (h : self.handshake c = (r, CryptoSocket.detecting s')) :
    (self._factory = none ∧ r = HandshakeResult.DONE ∧ s' = self) ∨
    ∃ factory rd buffer,
      self._factory = some factory ∧
      rd = self._socket.read (self._buffer.reserve c.SNOOP_SIZE).free ∧
      s'._socket = rd.socket ∧ s'._buffer = buffer ∧
      ((r = HandshakeResult.FAIL ∧ ¬ 0 < rd.res ∧ is_blocked c rd.res rd.socket.errno = false ∧
          buffer = self._buffer.reserve c.SNOOP_SIZE ∧ s'._factory = some factory) ∨
       ((0 < rd.res ∧
            buffer = (self._buffer.reserve c.SNOOP_SIZE).commit rd.data rd.res.toNat ∨
          ¬ 0 < rd.res ∧ is_blocked c rd.res rd.socket.errno = true ∧
            buffer = self._buffer.reserve c.SNOOP_SIZE) ∧
        ((r = HandshakeResult.NEED_READ ∧ buffer.data.length < c.SNOOP_SIZE ∧
            s'._factory = some factory) ∨
         (r = HandshakeResult.DONE ∧ c.SNOOP_SIZE ≤ buffer.data.length ∧
            looksLikeTlsToMe buffer.data = false ∧ s'._factory = none)))) := by
  have hclass : ∀ (factory : TlsCryptoEngine) (socket : SocketHandle) (buffer : SmartBuffer),
      MyCryptoSocket.classify c factory socket buffer = (r, CryptoSocket.detecting s') →
      s'._socket = socket ∧ s'._buffer = buffer ∧
      ((r = HandshakeResult.NEED_READ ∧ buffer.data.length < c.SNOOP_SIZE ∧
          s'._factory = some factory) ∨
       (r = HandshakeResult.DONE ∧ c.SNOOP_SIZE ≤ buffer.data.length ∧
          looksLikeTlsToMe buffer.data = false ∧ s'._factory = none)) := by
    intro factory socket buffer hc
    unfold MyCryptoSocket.classify at hc
    simp only [SmartBuffer.obtain] at hc
    by_cases hlt : buffer.data.length < c.SNOOP_SIZE
    · rw [if_pos hlt] at hc
      simp only [Prod.mk.injEq, CryptoSocket.detecting.injEq] at hc
      obtain ⟨hr, hs⟩ := hc
      subst hr hs
      exact ⟨rfl, rfl, Or.inl ⟨rfl, hlt, rfl⟩⟩
    · rw [if_neg hlt] at hc
      by_cases htls : looksLikeTlsToMe buffer.data = true
      · rw [if_pos htls] at hc
        simp at hc
      · rw [if_neg htls] at hc
        simp only [Prod.mk.injEq, CryptoSocket.detecting.injEq] at hc
        obtain ⟨hr, hs⟩ := hc
        subst hr hs
        exact ⟨rfl, rfl, Or.inr ⟨rfl, by omega, by simpa using htls, rfl⟩⟩
  unfold MyCryptoSocket.handshake at h
  cases hf : self._factory with
  | none =>
    rw [hf] at h
    simp only [Prod.mk.injEq, CryptoSocket.detecting.injEq] at h
    exact Or.inl ⟨rfl, h.1.symm, h.2.symm⟩
  | some factory =>
    rw [hf] at h
    right
    simp only at h
    by_cases hpos : 0 < (self._socket.read (self._buffer.reserve c.SNOOP_SIZE).free).res
    · rw [if_pos hpos] at h
      obtain ⟨h1, h2, h3⟩ := hclass _ _ _ h
      exact ⟨factory, _, _, rfl, rfl, h1, h2, Or.inr ⟨Or.inl ⟨hpos, rfl⟩, h3⟩⟩
    · rw [if_neg hpos] at h
      by_cases hb : is_blocked c (self._socket.read (self._buffer.reserve c.SNOOP_SIZE).free).res
          (self._socket.read (self._buffer.reserve c.SNOOP_SIZE).free).socket.errno = true
      · rw [hb] at h
        simp only [Bool.not_true, Bool.false_eq_true, if_false] at h
        obtain ⟨h1, h2, h3⟩ := hclass _ _ _ h
        exact ⟨factory, _, _, rfl, rfl, h1, h2, Or.inr ⟨Or.inr ⟨hpos, hb, rfl⟩, h3⟩⟩
      · have hb' : is_blocked c (self._socket.read (self._buffer.reserve c.SNOOP_SIZE).free).res
            (self._socket.read (self._buffer.reserve c.SNOOP_SIZE).free).socket.errno = false := by
          simpa using hb
        rw [hb'] at h
        simp only [Bool.not_false, if_true, Prod.mk.injEq, CryptoSocket.detecting.injEq] at h
        obtain ⟨hr, hs⟩ := h
        subst hr hs
        exact ⟨factory, _, _, rfl, rfl, rfl, rfl, Or.inl ⟨rfl, hpos, hb', rfl, rfl⟩⟩


/-! ## What sequences of handshake calls preserve -/

theorem MyCryptoSocket.handshake_pending (c : Constants) (self s' : MyCryptoSocket)
    (r : HandshakeResult) (h : self.handshake c = (r, CryptoSocket.detecting s')) :
    s'.pending = self.pending := by
  rcases MyCryptoSocket.handshake_detecting c self s' r h with
    ⟨_, _, hs⟩ | ⟨factory, rd, buffer, _, hrd, hsock, hbuf, hcase⟩
  · rw [hs]
  · unfold MyCryptoSocket.pending
    rw [hsock, hbuf]
    have hneg_keep : ¬ 0 < rd.res → is_blocked c rd.res rd.socket.errno = true →
        rd.socket.incoming = self._socket.incoming := by
      intro _ hb
      have hneg := is_blocked_neg c _ _ hb
      rw [hrd] at hneg ⊢
      exact SocketHandle.read_neg_incoming _ _ hneg
    rcases hcase with ⟨_, hnp, hb, hbuf', _⟩ | ⟨hread, _⟩
    · rw [hbuf']
      have hle : rd.res ≤ 0 := by omega
      rcases (self._socket.read_cases (self._buffer.reserve c.SNOOP_SIZE).free) with
        ⟨_, _, h3⟩ | ⟨k, h1, _, h3, _⟩
      · rw [hrd, h3]; rfl
      · rw [hrd, h1] at hle
        have hz : (List.take k self._socket.incoming).length = 0 := by omega
        have hnil : List.take k self._socket.incoming = [] := List.length_eq_zero.mp hz
        rw [hrd, h3]
        conv_rhs => rw [← List.take_append_drop k self._socket.incoming, hnil]
        rfl
    · rcases hread with ⟨_, hbuf'⟩ | ⟨hnp, hb, hbuf'⟩
      · rw [hbuf', hrd]
        simp only [SmartBuffer.commit, SmartBuffer.reserve, SocketHandle.read_take_res,
          List.append_assoc, SocketHandle.read_data_incoming]
      · rw [hbuf', hneg_keep hnp hb]; rfl

theorem MyCryptoSocket.handshake_staging (c : Constants) (self s' : MyCryptoSocket)
    (r : HandshakeResult) (h : self.handshake c = (r, CryptoSocket.detecting s'))
    (hK : c.SNOOP_SIZE ≤ 8)
    (hsum : self._buffer.data.length + self._buffer.free = 4096)
    (hdet : self._factory ≠ none → self._buffer.data.length < c.SNOOP_SIZE) :
    s'._buffer.data.length + s'._buffer.free = 4096 ∧
    (s'._factory ≠ none → s'._buffer.data.length < c.SNOOP_SIZE) ∧
    (s'._socket.reads = self._socket.reads ∨
      s'._socket.reads = self._socket.reads ++ [4096 - self._buffer.data.length] ∧
        self._buffer.data.length < c.SNOOP_SIZE) := by
  rcases MyCryptoSocket.handshake_detecting c self s' r h with
    ⟨_, _, hs⟩ | ⟨factory, rd, buffer, hf, hrd, hsock, hbuf, hcase⟩
  · rw [hs]; exact ⟨hsum, hdet, Or.inl rfl⟩
  · have hlt : self._buffer.data.length < c.SNOOP_SIZE := hdet (by rw [hf]; simp)
    have hfree : (self._buffer.reserve c.SNOOP_SIZE).free = 4096 - self._buffer.data.length := by
      simp only [SmartBuffer.reserve]; omega
    have hreads : s'._socket.reads =
        self._socket.reads ++ [4096 - self._buffer.data.length] := by
      rw [hsock, hrd, SocketHandle.read_reads, hfree]
    have hres : (self._buffer.reserve c.SNOOP_SIZE).data = self._buffer.data := rfl
    refine ⟨?_, ?_, Or.inr ⟨hreads, hlt⟩⟩
    · rw [hbuf]
      rcases hcase with ⟨_, _, _, hbuf', _⟩ | ⟨hread, _⟩
      · rw [hbuf', hres, hfree]; omega
      · rcases hread with ⟨hpos, hbuf'⟩ | ⟨_, _, hbuf'⟩
        · have hlen := SocketHandle.read_nonneg_length self._socket
            (self._buffer.reserve c.SNOOP_SIZE).free (by rw [← hrd]; omega)
          have hle := SocketHandle.read_length_le self._socket
            (self._buffer.reserve c.SNOOP_SIZE).free
          rw [← hrd] at hlen hle
          rw [hbuf']
          simp only [SmartBuffer.commit, List.length_append, List.length_take, hres, hfree]
          rw [hfree] at hle
          omega
        · rw [hbuf', hres, hfree]; omega
    · intro hne
      rw [hbuf]
      rcases hcase with ⟨_, _, _, hbuf', _⟩ | ⟨_, hverdict⟩
      · rw [hbuf', hres]; exact hlt
      · rcases hverdict with ⟨_, hshort, _⟩ | ⟨_, _, _, hnone⟩
        · exact hshort
        · exact absurd hnone hne

theorem handshakeTimes_staging (c : Constants) (hK : c.SNOOP_SIZE ≤ 8) (n : Nat) :
    ∀ s s' : MyCryptoSocket, handshakeTimes c n s = some s' →
      s._buffer.data.length + s._buffer.free = 4096 →
      (s._factory ≠ none → s._buffer.data.length < c.SNOOP_SIZE) →
      s'._buffer.data.length + s'._buffer.free = 4096 ∧
      (s'._factory ≠ none → s'._buffer.data.length < c.SNOOP_SIZE) ∧
      s'.pending = s.pending ∧
      ∃ asked : List Nat, s'._socket.reads = s._socket.reads ++ asked ∧
        ∀ a ∈ asked, 4096 - c.SNOOP_SIZE < a ∧ a ≤ 4096 := by
  induction n with
  | zero =>
    intro s s' h hsum hdet
    simp only [handshakeTimes, Option.some.injEq] at h
    subst h
    exact ⟨hsum, hdet, rfl, [], by simp, by simp⟩
  | succ n ih =>
    intro s s' h hsum hdet
    unfold handshakeTimes at h
    cases hstep : s.handshake c with
    | mk r slot =>
      rw [hstep] at h
      cases slot with
      | tls e t => simp at h
      | detecting s₁ =>
        simp only at h
        obtain ⟨hsum₁, hdet₁, hreads₁⟩ :=
          MyCryptoSocket.handshake_staging c s s₁ r hstep hK hsum hdet
        have hpend₁ := MyCryptoSocket.handshake_pending c s s₁ r hstep
        obtain ⟨hsum', hdet', hpend', asked, hasked, hall⟩ := ih s₁ s' h hsum₁ hdet₁
        refine ⟨hsum', hdet', hpend'.trans hpend₁, ?_⟩
        rcases hreads₁ with hsame | ⟨hmore, hlt⟩
        · exact ⟨asked, by rw [hasked, hsame], hall⟩
        · refine ⟨(4096 - s._buffer.data.length) :: asked, ?_, ?_⟩
          · rw [hasked, hmore]; simp
          · intro a ha
            rcases List.mem_cons.mp ha with rfl | ha'
            · omega
            · exact hall a ha'

theorem handshakeUntilDone_times (c : Constants) (fuel : Nat) :
    ∀ s s' : MyCryptoSocket, handshakeUntilDone c fuel s = some s' →
      ∃ n, handshakeTimes c n s = some s' := by
  induction fuel with
  | zero => intro s s' h; simp [handshakeUntilDone] at h
  | succ fuel ih =>
    intro s s' h
    unfold handshakeUntilDone at h
    split at h
    · rename_i s₁ hstep
      simp only [Option.some.injEq] at h
      subst h
      exact ⟨1, by simp [handshakeTimes, hstep]⟩
    · rename_i s₁ hstep
      obtain ⟨n, hn⟩ := ih s₁ s' h
      exact ⟨n + 1, by simp only [handshakeTimes, hstep]; exact hn⟩
    · simp at h


/-! ## C8: how much a handshake asks from the raw connection -/

/-- C8, the claim as stated fails: with `SNOOP_SIZE = 3`, a constructed socket
that has two bytes staged after its first `handshake()` (still Detecting) asks
the raw connection for 4094 bytes in the second call, not for at most
`3 - 2 = 1`, and holds five staged bytes afterwards, more than `SNOOP_SIZE`. -/
theorem handshake_stages_beyond_snoop_size :
    MyCryptoSocket.create linux3
        (SocketHandle.connected httpGet [ReadOutcome.data 1, ReadOutcome.data 2])
        (some needyEngine) =
      some (detectingSocket httpGet [ReadOutcome.data 1, ReadOutcome.data 2]) ∧
    linux3.SNOOP_SIZE = 3 ∧
    (handshakeTimes linux3 1
        (detectingSocket httpGet [ReadOutcome.data 1, ReadOutcome.data 2])).map
      (fun s => (s._factory.isSome, s._buffer.data, s._socket.reads)) =
      some (true, [0x47, 0x45], [4096]) ∧
    (handshakeTimes linux3 2
        (detectingSocket httpGet [ReadOutcome.data 1, ReadOutcome.data 2])).map
      (fun s => (s._buffer.data, s._socket.reads)) =
      some ([0x47, 0x45, 0x54, 0x20, 0x2F], [4096, 4094]) :=
  ⟨rfl, rfl, by decide, by decide⟩

/-- C8, amended: `0 < SNOOP_SIZE ≤ 8` for every constructed socket, and after
any sequence of `handshake()` calls on it: fewer than `SNOOP_SIZE` bytes are
staged while the socket is Detecting, and the next call then asks the raw
connection for the whole writable region `reserve(SNOOP_SIZE)` answers, which
is `4096 - staged` bytes and so at least `SNOOP_SIZE`; every read the calls
made asked for more than `4096 - SNOOP_SIZE` and at most 4096 bytes; the
staging buffer holds at most 4096 bytes (it may hold more than `SNOOP_SIZE`). -/
theorem handshake_staging_bound (c : Constants) (socket : SocketHandle)
    (tls_engine : Option TlsCryptoEngine) (s₀ s : MyCryptoSocket) (n : Nat)
    (hnew : MyCryptoSocket.create c socket tls_engine = some s₀)
    (hrun : handshakeTimes c n s₀ = some s) :
    0 < c.SNOOP_SIZE ∧ c.SNOOP_SIZE ≤ 8 ∧
    (s._factory ≠ none →
      s._buffer.data.length < c.SNOOP_SIZE ∧
      (s._buffer.reserve c.SNOOP_SIZE).free = 4096 - s._buffer.data.length ∧
      c.SNOOP_SIZE ≤ (s._buffer.reserve c.SNOOP_SIZE).free) ∧
    (∃ asked : List Nat, s._socket.reads = socket.reads ++ asked ∧
      ∀ a ∈ asked, c.SNOOP_SIZE ≤ a ∧ 4096 - c.SNOOP_SIZE < a ∧ a ≤ 4096) ∧
    s._buffer.data.length ≤ 4096 := by
  unfold MyCryptoSocket.create at hnew
  split at hnew
  · rename_i hK
    simp only [Option.some.injEq] at hnew
    subst hnew
    obtain ⟨hsum, hdet, _, asked, hasked, hall⟩ :=
      handshakeTimes_staging c hK.2 n _ s hrun rfl (fun _ => hK.1)
    refine ⟨hK.1, hK.2, ?_, ⟨asked, hasked, ?_⟩, by omega⟩
    · intro hne
      have hlt := hdet hne
      have hfree : (s._buffer.reserve c.SNOOP_SIZE).free = 4096 - s._buffer.data.length := by
        simp only [SmartBuffer.reserve]; omega
      exact ⟨hlt, hfree, by rw [hfree]; omega⟩
    · intro a ha
      have := hall a ha
      omega
  · exact absurd hnew (by simp)

theorem handshake_staging_bound_witness :
    ∃ asked : List Nat,
      stagedGet._socket.reads =
        (SocketHandle.connected httpGet [ReadOutcome.data 1, ReadOutcome.data 2]).reads ++ asked ∧
      ∀ a ∈ asked, linux3.SNOOP_SIZE ≤ a ∧ 4096 - linux3.SNOOP_SIZE < a ∧ a ≤ 4096 :=
  (handshake_staging_bound linux3
    (SocketHandle.connected httpGet [ReadOutcome.data 1, ReadOutcome.data 2])
    (some needyEngine) _ stagedGet 2 rfl rfl).2.2.2.1

/-! ## C9 and C10: failing raw reads -/

/-- C9: in a Detecting state (factory present, whatever is staged), a raw read
that returns a negative result with an `errno` that is neither `EWOULDBLOCK`
nor `EAGAIN` makes `handshake()` answer `FAIL`; the detecting socket stays in
the slot with its factory (no TLS variant, no verdict) and the staged bytes are
the ones staged before the call. -/
theorem handshake_hard_error (c : Constants) (self : MyCryptoSocket) (factory : TlsCryptoEngine)
    (rd : ReadResult)
    (hf : self._factory = some factory)
    (hrd : rd = self._socket.read (self._buffer.reserve c.SNOOP_SIZE).free)
    (hneg : rd.res < 0)
    (hwb : rd.socket.errno ≠ c.EWOULDBLOCK) (hag : rd.socket.errno ≠ c.EAGAIN) :
    self.handshake c =
      (HandshakeResult.FAIL,
        CryptoSocket.detecting { _socket := rd.socket, _factory := some factory,
                                 _buffer := self._buffer.reserve c.SNOOP_SIZE }) ∧
    (self._buffer.reserve c.SNOOP_SIZE).data = self._buffer.data := by
  refine ⟨?_, rfl⟩
  unfold MyCryptoSocket.handshake
  rw [hf]
  simp only [← hrd]
  have hb : is_blocked c rd.res rd.socket.errno = false := by
    unfold is_blocked
    simp [hwb, hag]
  rw [if_neg (by omega), hb]
  rfl

theorem handshake_hard_error_witness :
    ((detectingSocket clientHello [ReadOutcome.error 104]).handshake linux3).1 =
      HandshakeResult.FAIL := by
  rw [(handshake_hard_error linux3 (detectingSocket clientHello [ReadOutcome.error 104])
    needyEngine _ rfl rfl (by decide) (by decide) (by decide)).1]

/-- C10: in a Detecting state, a raw read that returns a negative result with
`errno` `EWOULDBLOCK` or `EAGAIN` takes nothing from the peer and leaves the
staged bytes as they are, and `handshake()` goes on with them: `NEED_READ` with
fewer than `SNOOP_SIZE` bytes staged, `DONE` on the not-TLS verdict, and the
TLS variant's own answer on the looks-like-TLS verdict; it does not answer
`FAIL` itself. -/
theorem handshake_would_block (c : Constants) (self : MyCryptoSocket) (factory : TlsCryptoEngine)
    (rd : ReadResult)
    (hf : self._factory = some factory)
    (hrd : rd = self._socket.read (self._buffer.reserve c.SNOOP_SIZE).free)
    (hneg : rd.res < 0)
    (hwb : rd.socket.errno = c.EWOULDBLOCK ∨ rd.socket.errno = c.EAGAIN) :
    rd.socket.incoming = self._socket.incoming ∧
    (self._buffer.reserve c.SNOOP_SIZE).data = self._buffer.data ∧
    (self._buffer.data.length < c.SNOOP_SIZE →
      self.handshake c =
        (HandshakeResult.NEED_READ,
          CryptoSocket.detecting { _socket := rd.socket, _factory := some factory,
                                   _buffer := self._buffer.reserve c.SNOOP_SIZE })) ∧
    (c.SNOOP_SIZE ≤ self._buffer.data.length → looksLikeTlsToMe self._buffer.data = false →
      self.handshake c =
        (HandshakeResult.DONE,
          CryptoSocket.detecting { _socket := rd.socket, _factory := none,
                                   _buffer := self._buffer.reserve c.SNOOP_SIZE })) ∧
    (c.SNOOP_SIZE ≤ self._buffer.data.length → looksLikeTlsToMe self._buffer.data = true →
      self.handshake c =
        ((factory.handshake ((factory.create_tls_crypto_socket rd.socket true).inject_read_data
            self._buffer.data self._buffer.data.length)).1,
          CryptoSocket.tls factory
            (factory.handshake ((factory.create_tls_crypto_socket rd.socket true).inject_read_data
              self._buffer.data self._buffer.data.length)).2)) := by
  have hb : is_blocked c rd.res rd.socket.errno = true := by
    unfold is_blocked
    rcases hwb with h | h <;> simp [hneg, h]
  have hstep : self.handshake c =
      MyCryptoSocket.classify c factory rd.socket (self._buffer.reserve c.SNOOP_SIZE) := by
    unfold MyCryptoSocket.handshake
    rw [hf]
    simp only [← hrd]
    rw [if_neg (by omega), hb]
    rfl
  refine ⟨?_, rfl, ?_, ?_, ?_⟩
  · rw [hrd] at hneg ⊢
    exact SocketHandle.read_neg_incoming _ _ hneg
  · intro hlt
    rw [hstep]
    unfold MyCryptoSocket.classify
    simp only [SmartBuffer.obtain, SmartBuffer.reserve]
    rw [if_pos hlt]
  · intro hge hnot
    rw [hstep]
    unfold MyCryptoSocket.classify
    simp only [SmartBuffer.obtain, SmartBuffer.reserve]
    rw [if_neg (by omega), hnot]
    rfl
  · intro hge htls
    rw [hstep]
    unfold MyCryptoSocket.classify
    simp only [SmartBuffer.obtain, SmartBuffer.reserve]
    rw [if_neg (by omega), if_pos htls]

theorem handshake_would_block_witness :
    ((detectingSocket clientHello [ReadOutcome.error 11]).handshake linux3).1 =
      HandshakeResult.NEED_READ := by
  rw [(handshake_would_block linux3 (detectingSocket clientHello [ReadOutcome.error 11])
    needyEngine _ rfl rfl (by decide) (Or.inl (by decide))).2.2.1 (by decide)]


/-! ## C1: byte preservation on the passthrough path -/

theorem MyCryptoSocket.drain_pending (self : MyCryptoSocket) (len : Nat) :
    (self.drain len).delivered ++ (self.drain len).self.pending = self.pending ∧
    (self.drain len).self._buffer.data.length ≤ self._buffer.data.length := by
  by_cases h : 0 < min len self._buffer.data.length
  · rw [MyCryptoSocket.drain_pos self len h]
    simp only [IoResult.delivered, MyCryptoSocket.pending, SmartBuffer.evict, Int.toNat_ofNat,
      List.length_drop]
    constructor
    · rw [← List.append_assoc, List.take_take, Nat.min_self, List.take_append_drop]
    · omega
  · have h0 : min len self._buffer.data.length = 0 := by omega
    rw [MyCryptoSocket.drain_zero self len h0]
    simp [IoResult.delivered]

theorem MyCryptoSocket.read_pending (self : MyCryptoSocket) (len : Nat) (hlen : 0 < len)
    (hint : self._buffer.data.length < 2147483648) :
    (self.read len).delivered ++ (self.read len).self.pending = self.pending ∧
    (self.read len).self._buffer.data.length ≤ self._buffer.data.length ∧
    ((self.read len).res = 0 → (self.read len).self.pending = []) := by
  have hint' : min len self._buffer.data.length < 2147483648 := by omega
  by_cases h : 0 < min len self._buffer.data.length
  · rw [MyCryptoSocket.read_staged self len h hint']
    simp only [IoResult.delivered, MyCryptoSocket.pending, SmartBuffer.evict, Int.toNat_ofNat,
      List.length_drop]
    refine ⟨?_, by omega, fun hc => ?_⟩
    · rw [← List.append_assoc, List.take_take, Nat.min_self, List.take_append_drop]
    · have hne : min len self._buffer.data.length ≠ 0 := by omega
      exact absurd (by exact_mod_cast hc) hne
  · have h0 : min len self._buffer.data.length = 0 := by omega
    have hnil : self._buffer.data = [] := by
      apply List.length_eq_zero.mp
      omega
    rw [MyCryptoSocket.read_unstaged self len h0]
    simp only [IoResult.delivered, MyCryptoSocket.pending, hnil, List.nil_append,
      SocketHandle.read_take_res, SocketHandle.read_data_incoming]
    refine ⟨trivial, ?_, fun hc => ?_⟩
    · simp
    · exact (SocketHandle.read_eof self._socket len hlen hc).1

theorem runCalls_pending (calls : List Call) :
    ∀ s : MyCryptoSocket, (∀ call ∈ calls, 0 < call.len) →
      s._buffer.data.length < 2147483648 →
      (runCalls calls s).out ++ (runCalls calls s).self.pending = s.pending ∧
      ((runCalls calls s).eof = true → (runCalls calls s).self.pending = []) := by
  induction calls with
  | nil => intro s _ _; simp [runCalls]
  | cons call rest ih =>
    intro s hlen hint
    have hrest : ∀ call ∈ rest, 0 < call.len := fun x hx => hlen x (List.mem_cons_of_mem _ hx)
    have hhead : 0 < call.len := hlen call (List.mem_cons_self _ _)
    cases call with
    | drain len =>
      obtain ⟨hd, hle⟩ := MyCryptoSocket.drain_pending s len
      obtain ⟨ih1, ih2⟩ := ih (s.drain len).self hrest (by omega)
      simp only [runCalls, Call.run, Bool.false_or]
      refine ⟨?_, ih2⟩
      rw [List.append_assoc, ih1, hd]
    | read len =>
      obtain ⟨hd, hle, heof⟩ := MyCryptoSocket.read_pending s len hhead hint
      obtain ⟨ih1, ih2⟩ := ih (s.read len).self hrest (by omega)
      simp only [runCalls, Call.run, Bool.or_eq_true, decide_eq_true_eq]
      refine ⟨?_, ?_⟩
      · rw [List.append_assoc, ih1, hd]
      · rintro (h0 | hlater)
        · have hnil := heof h0
          rw [hnil] at ih1
          exact (List.append_eq_nil.mp ih1).2
        · exact ih2 hlater

/-- C1: a socket is constructed over a connection on which the peer sends
`socket.incoming`, fragmented, blocked or failed in any way (`socket.script`),
and the owner's handshake loop ends with `DONE` and the detecting socket still
in the slot (no factory, or the not-TLS verdict).  Then for every sequence of
`read`/`drain` calls with `len > 0` the delivered bytes, in call order, are an
initial part of the bytes sent, what is missing being exactly the bytes still
staged or not yet read; once a `read` has reported the end of the stream they
are all the bytes sent. -/
theorem byte_preservation (c : Constants) (socket : SocketHandle)
    (tls_engine : Option TlsCryptoEngine) (s₀ s : MyCryptoSocket) (fuel : Nat)
    (calls : List Call)
    (hnew : MyCryptoSocket.create c socket tls_engine = some s₀)
    (hdone : handshakeUntilDone c fuel s₀ = some s)
    (hlen : ∀ call ∈ calls, 0 < call.len) :
    (runCalls calls s).out <+: socket.incoming ∧
    (runCalls calls s).out ++ (runCalls calls s).self.pending = socket.incoming ∧
    ((runCalls calls s).eof = true → (runCalls calls s).out = socket.incoming) := by
  obtain ⟨n, hn⟩ := handshakeUntilDone_times c fuel s₀ s hdone
  unfold MyCryptoSocket.create at hnew
  split at hnew
  · rename_i hK
    simp only [Option.some.injEq] at hnew
    subst hnew
    obtain ⟨hsum, _, hpend, _⟩ := handshakeTimes_staging c hK.2 n _ s hn rfl (fun _ => hK.1)
    obtain ⟨hout, heof⟩ := runCalls_pending calls s hlen (by omega)
    have hsent : s.pending = socket.incoming := by
      rw [hpend]; rfl
    rw [hsent] at hout
    refine ⟨⟨_, hout⟩, hout, fun he => ?_⟩
    have hnil := heof he
    rw [hnil, List.append_nil] at hout
    exact hout
  · exact absurd hnew (by simp)

theorem byte_preservation_witness :
    (runCalls [Call.read 2, Call.drain 1, Call.read 9, Call.read 9] stagedGet).out =
      (SocketHandle.connected httpGet [ReadOutcome.data 1, ReadOutcome.data 2]).incoming :=
  (byte_preservation linux3
    (SocketHandle.connected httpGet [ReadOutcome.data 1, ReadOutcome.data 2])
    (some needyEngine) _ stagedGet 5
    [Call.read 2, Call.drain 1, Call.read 9, Call.read 9] rfl rfl (by decide)).2.2 (by decide)

/-! ## C11: the accumulation step -/

/-- C11: in a Detecting state with `s` bytes staged, a raw read that returns
`n > 0` bytes with `s + n < SNOOP_SIZE` makes `handshake()` answer `NEED_READ`;
the staging buffer then holds the `s` bytes staged before followed by exactly
the `n` bytes read, in order, and the detecting socket stays in the slot with
its factory (no TLS variant, no verdict, whatever the bytes are). -/
theorem handshake_accumulates (c : Constants) (self : MyCryptoSocket) (factory : TlsCryptoEngine)
    (rd : ReadResult)
    (hf : self._factory = some factory)
    (hrd : rd = self._socket.read (self._buffer.reserve c.SNOOP_SIZE).free)
    (hpos : 0 < rd.res)
    (hshort : self._buffer.data.length + rd.res.toNat < c.SNOOP_SIZE) :
    self.handshake c =
      (HandshakeResult.NEED_READ,
        CryptoSocket.detecting
          { _socket := rd.socket, _factory := some factory,
            _buffer := (self._buffer.reserve c.SNOOP_SIZE).commit rd.data rd.res.toNat }) ∧
    ((self._buffer.reserve c.SNOOP_SIZE).commit rd.data rd.res.toNat).data =
      self._buffer.data ++ rd.data ∧
    rd.data.length = rd.res.toNat ∧
    rd.data ++ rd.socket.incoming = self._socket.incoming := by
  have hlen : rd.res = ((rd.data.length : Nat) : Int) := by
    rw [hrd]; exact SocketHandle.read_nonneg_length _ _ (by rw [← hrd]; omega)
  have hdata : ((self._buffer.reserve c.SNOOP_SIZE).commit rd.data rd.res.toNat).data =
      self._buffer.data ++ rd.data := by
    rw [hrd]
    simp only [SmartBuffer.commit, SmartBuffer.reserve, SocketHandle.read_take_res]
  refine ⟨?_, hdata, by omega, by rw [hrd]; exact SocketHandle.read_data_incoming _ _⟩
  unfold MyCryptoSocket.handshake
  rw [hf]
  simp only [← hrd]
  rw [if_pos hpos]
  unfold MyCryptoSocket.classify
  simp only [SmartBuffer.obtain]
  rw [hdata, if_pos (by rw [List.length_append]; omega)]

theorem handshake_accumulates_witness :
    ((detectingSocket clientHello [ReadOutcome.data 1]).handshake linux3).1 =
      HandshakeResult.NEED_READ := by
  rw [(handshake_accumulates linux3 (detectingSocket clientHello [ReadOutcome.data 1])
    needyEngine _ rfl rfl (by decide) (by decide)).1]

/-! ## C15: the peer closes while the socket is detecting -/

/-- C15: in a Detecting state, whatever is staged and whatever `errno` holds, a
raw read that returns 0 makes `handshake()` answer `FAIL`; the detecting socket
stays in the slot with its factory (no verdict, no TLS variant) and the staged
bytes are the ones staged before the call. -/
theorem handshake_orderly_close (c : Constants) (self : MyCryptoSocket)
    (factory : TlsCryptoEngine) (rd : ReadResult)
    (hf : self._factory = some factory)
    (hrd : rd = self._socket.read (self._buffer.reserve c.SNOOP_SIZE).free)
    (hzero : rd.res = 0) :
    self.handshake c =
      (HandshakeResult.FAIL,
        CryptoSocket.detecting { _socket := rd.socket, _factory := some factory,
                                 _buffer := self._buffer.reserve c.SNOOP_SIZE }) ∧
    (self._buffer.reserve c.SNOOP_SIZE).data = self._buffer.data := by
  refine ⟨?_, rfl⟩
  unfold MyCryptoSocket.handshake
  rw [hf]
  simp only [← hrd]
  have hb : is_blocked c rd.res rd.socket.errno = false := by
    unfold is_blocked
    simp [hzero]
  rw [if_neg (by omega), hb]
  rfl

theorem handshake_orderly_close_witness :
    (closedEarly.handshake linux3).1 = HandshakeResult.FAIL := by
  rw [(handshake_orderly_close linux3 closedEarly needyEngine _ rfl rfl (by decide)).1]

/-! ## C14: write and flush -/

/-- C14, the claim as stated fails: `write` is served while the socket is still
Detecting (the factory is present and no handshake has run) and goes to the raw
connection; `flush()` goes nowhere: on a connection that refuses the next
write, `write` answers `-1` and `flush()` answers 0 with the connection
untouched. -/
theorem write_while_detecting :
    (detectingSocket httpGet [])._factory.isSome = true ∧
    ((detectingSocket httpGet []).write [0x48, 0x49] 2).res = 2 ∧
    ((detectingSocket httpGet []).write [0x48, 0x49] 2).self._socket.written = [0x48, 0x49] ∧
    (brokenPipe.write [0x48, 0x49] 2).res = -1 ∧
    (brokenPipe.flush).res = 0 ∧
    (brokenPipe.flush).self._socket = brokenPipe._socket :=
  ⟨rfl, by decide, by decide, by decide, by decide, by decide⟩

/-- C14, amended: in every state (Plain or Detecting, the code does not look at
the state) `write(buf, len)` passes exactly `buf` and `len` to the raw
connection's `write` and returns its result unchanged; `flush()` returns 0
without calling the raw connection; neither touches the staging buffer or the
factory. -/
theorem write_flush_spec (self : MyCryptoSocket) (buf : List Byte) (len : Nat) :
    (self.write buf len).res = (self._socket.write buf len).res ∧
    (self.write buf len).self._socket = (self._socket.write buf len).socket ∧
    (self.write buf len).self._buffer = self._buffer ∧
    (self.write buf len).self._factory = self._factory ∧
    (self.flush).res = 0 ∧
    (self.flush).self = self :=
  ⟨rfl, rfl, rfl, rfl, rfl, rfl⟩

/-! ## C12: fragmentation independence -/

theorem SocketHandle.read_data (s : SocketHandle) (len k : Nat) (rest : List ReadOutcome)
    (h : s.script = ReadOutcome.data k :: rest) :
    s.read len =
      { res := ((s.incoming.take (min len (k + 1))).length : Nat),
        data := s.incoming.take (min len (k + 1)),
        socket := { s with incoming := s.incoming.drop (min len (k + 1)), script := rest,
                           reads := s.reads ++ [len] } } := by
  unfold SocketHandle.read
  rw [h]

/-- One step of the handshake loop when the raw read has not failed. -/
theorem detect_classify (c : Constants) (fuel : Nat) (s : MyCryptoSocket)
    (factory : TlsCryptoEngine) (socket : SocketHandle) (buffer : SmartBuffer)
    (h : s.handshake c = MyCryptoSocket.classify c factory socket buffer) :
    detect c (fuel + 1) s =
      if buffer.data.length < c.SNOOP_SIZE then
        detect c fuel { _socket := socket, _factory := some factory, _buffer := buffer }
      else if looksLikeTlsToMe buffer.data = true then Verdict.upgraded
      else Verdict.plain := by
  rw [detect, h]
  unfold MyCryptoSocket.classify
  simp only [SmartBuffer.obtain]
  by_cases hlt : buffer.data.length < c.SNOOP_SIZE
  · simp only [if_pos hlt]
  · simp only [if_neg hlt]
    by_cases htls : looksLikeTlsToMe buffer.data = true
    · simp only [if_pos htls]
    · simp only [if_neg htls]

/-- A Detecting socket that lacks `d` bytes, on a connection that hands out one
byte per read: `d` calls reach the verdict of the sniffer on the staged bytes
followed by the next `d` bytes of the stream. -/
theorem detect_one_byte (c : Constants) (factory : TlsCryptoEngine) (d : Nat) :
    ∀ (fuel : Nat) (s : MyCryptoSocket) (rest : List ReadOutcome),
      s._factory = some factory → 0 < d →
      s._buffer.data.length + d = c.SNOOP_SIZE → d ≤ fuel →
      s._socket.script = List.replicate d (ReadOutcome.data 0) ++ rest →
      d ≤ s._socket.incoming.length →
      detect c fuel s =
        if looksLikeTlsToMe (s._buffer.data ++ s._socket.incoming.take d) = true
        then Verdict.upgraded else Verdict.plain := by
  induction d with
  | zero => intro _ _ _ _ h0; exact absurd h0 (by omega)
  | succ d ih =>
    intro fuel s rest hf _ hsum hfuel hscript hinc
    obtain ⟨fuel', rfl⟩ : ∃ f', fuel = f' + 1 := ⟨fuel - 1, by omega⟩
    have hscript' : s._socket.script =
        ReadOutcome.data 0 :: (List.replicate d (ReadOutcome.data 0) ++ rest) := by
      rw [hscript, List.replicate_succ]; rfl
    have hlen1 : min (s._buffer.reserve c.SNOOP_SIZE).free (0 + 1) = 1 := by
      simp only [SmartBuffer.reserve]; omega
    have hrd := SocketHandle.read_data s._socket (s._buffer.reserve c.SNOOP_SIZE).free 0 _ hscript'
    rw [hlen1] at hrd
    have htake1 : (s._socket.incoming.take 1).length = 1 := by
      rw [List.length_take]; omega
    have hpos : 0 < (s._socket.read (s._buffer.reserve c.SNOOP_SIZE).free).res := by
      rw [hrd]; simp only [htake1]; decide
    obtain ⟨buffer, hdata, hstep⟩ :=
      MyCryptoSocket.handshake_some c s factory _ hf rfl (Or.inl hpos)
    rw [if_pos hpos] at hdata
    rw [detect_classify c fuel' s factory _ buffer hstep]
    have hdata' : buffer.data = s._buffer.data ++ s._socket.incoming.take 1 := by
      rw [hdata, hrd]
    have hblen : buffer.data.length = s._buffer.data.length + 1 := by
      rw [hdata', List.length_append, htake1]
    have hjoin : buffer.data ++ (s._socket.incoming.drop 1).take d =
        s._buffer.data ++ s._socket.incoming.take (d + 1) := by
      rw [hdata', List.append_assoc, Nat.add_comm d 1, List.take_add]
    by_cases hd : d = 0
    · subst hd
      rw [if_neg (by omega)]
      simp only [List.take_zero, List.append_nil] at hjoin
      rw [← hjoin]
    · rw [if_pos (by omega)]
      rw [ih fuel' { _socket := (s._socket.read (s._buffer.reserve c.SNOOP_SIZE).free).socket,
                     _factory := some factory, _buffer := buffer } rest rfl (by omega)
            (by simp only; omega) (by omega) (by simp only [hrd]) (by
              simp only [hrd, List.length_drop]; omega)]
      simp only [hrd]
      rw [hjoin]

/-- C12: for a stream of at least `SNOOP_SIZE` bytes, the handshake loop on a
connection that hands out one byte per read (given `SNOOP_SIZE` calls or more)
and the handshake loop on a connection that hands out the first `SNOOP_SIZE`
bytes in a single read (given one call or more) reach the same verdict, and
this verdict is the sniffer's answer on the first `SNOOP_SIZE` bytes of the
stream: upgraded when it is looks-like-TLS, plain when it is not-TLS. -/
theorem fragmentation_independence (c : Constants) (socket : SocketHandle)
    (engine : TlsCryptoEngine) (sent : List Byte) (rest₁ rest₂ : List ReadOutcome)
    (s₁ s₂ : MyCryptoSocket) (fuel₁ fuel₂ : Nat)
    (hsent : c.SNOOP_SIZE ≤ sent.length)
    (hnew₁ : MyCryptoSocket.create c
      { socket with incoming := sent,
                    script := List.replicate c.SNOOP_SIZE (ReadOutcome.data 0) ++ rest₁ }
      (some engine) = some s₁)
    (hnew₂ : MyCryptoSocket.create c
      { socket with incoming := sent,
                    script := ReadOutcome.data (c.SNOOP_SIZE - 1) :: rest₂ }
      (some engine) = some s₂)
    (hfuel₁ : c.SNOOP_SIZE ≤ fuel₁) (hfuel₂ : 0 < fuel₂) :
    detect c fuel₁ s₁ = detect c fuel₂ s₂ ∧
    detect c fuel₂ s₂ =
      (if looksLikeTlsToMe (sent.take c.SNOOP_SIZE) = true then Verdict.upgraded
       else Verdict.plain) := by
  unfold MyCryptoSocket.create at hnew₁ hnew₂
  split at hnew₁
  · rename_i hK
    rw [if_pos hK] at hnew₂
    simp only [Option.some.injEq] at hnew₁ hnew₂
    subst hnew₁ hnew₂
    have h₁ := detect_one_byte c engine c.SNOOP_SIZE fuel₁
      { _socket := { socket with incoming := sent,
                                 script := List.replicate c.SNOOP_SIZE (ReadOutcome.data 0) ++ rest₁ },
        _factory := some engine, _buffer := SmartBuffer.create 4096 }
      rest₁ rfl hK.1 (by simp [SmartBuffer.create]) hfuel₁ rfl hsent
    simp only [SmartBuffer.create, List.nil_append] at h₁
    obtain ⟨fuel', rfl⟩ : ∃ f', fuel₂ = f' + 1 := ⟨fuel₂ - 1, by omega⟩
    have hrd := SocketHandle.read_data
      { socket with incoming := sent,
                    script := ReadOutcome.data (c.SNOOP_SIZE - 1) :: rest₂ }
      ((SmartBuffer.create 4096).reserve c.SNOOP_SIZE).free (c.SNOOP_SIZE - 1) rest₂ rfl
    have hmin : min ((SmartBuffer.create 4096).reserve c.SNOOP_SIZE).free (c.SNOOP_SIZE - 1 + 1) =
        c.SNOOP_SIZE := by
      simp only [SmartBuffer.reserve, SmartBuffer.create]; omega
    rw [hmin] at hrd
    have htake : (sent.take c.SNOOP_SIZE).length = c.SNOOP_SIZE := by
      rw [List.length_take]; omega
    have hpos : 0 < (SocketHandle.read
        { socket with incoming := sent,
                      script := ReadOutcome.data (c.SNOOP_SIZE - 1) :: rest₂ }
        ((SmartBuffer.create 4096).reserve c.SNOOP_SIZE).free).res := by
      rw [hrd]; simp only [htake]; omega
    obtain ⟨buffer, hdata, hstep⟩ :=
      MyCryptoSocket.handshake_some c
        { _socket := { socket with incoming := sent,
                                   script := ReadOutcome.data (c.SNOOP_SIZE - 1) :: rest₂ },
          _factory := some engine, _buffer := SmartBuffer.create 4096 }
        engine _ rfl rfl (Or.inl hpos)
    rw [if_pos hpos] at hdata
    have hdata' : buffer.data = sent.take c.SNOOP_SIZE := by
      rw [hdata, hrd]; rfl
    have h₂ := detect_classify c fuel' _ engine _ buffer hstep
    rw [if_neg (by rw [hdata', htake]; omega), hdata'] at h₂
    exact ⟨h₁.trans h₂.symm, h₂⟩
  · exact absurd hnew₁ (by simp)

theorem fragmentation_independence_witness :
    detect linux3 3
        (detectingSocket clientHello
          [ReadOutcome.data 0, ReadOutcome.data 0, ReadOutcome.data 0]) =
      detect linux3 1 (detectingSocket clientHello [ReadOutcome.data 2]) :=
  (fragmentation_independence linux3 (SocketHandle.connected [] []) needyEngine clientHello
    [] [] _ _ 3 1 (by decide) rfl rfl (by decide) (by decide)).1

/-! ## C13: scenario B -/

theorem looksLikeTlsToMe_head (buf : List Byte) (h : looksLikeTlsToMe buf = true) :
    ∃ tl, buf = 0x16 :: tl := by
  unfold looksLikeTlsToMe snoop_client_hello_header at h
  split at h
  · rename_i b0 b1 b2 rest
    by_cases hb : b0 = 0x16 ∧ b1 = 0x03 ∧ b2 ≤ 0x04
    · exact ⟨_, by rw [hb.1]⟩
    · simp only [hb, if_false] at h
      simp at h
  · simp at h

/-- A `handshake()` call that puts the TLS variant in the slot has staged an
initial part of the pending bytes that looks like TLS. -/
theorem MyCryptoSocket.handshake_tls (c : Constants) (self : MyCryptoSocket)
    (r : HandshakeResult) (e : TlsCryptoEngine) (t : TlsCryptoSocket)
    (h : self.handshake c = (r, CryptoSocket.tls e t)) :
    ∃ staged rest, looksLikeTlsToMe staged = true ∧ staged ++ rest = self.pending := by
  cases hf : self._factory with
  | none =>
    rw [MyCryptoSocket.handshake_none c self hf] at h
    simp at h
  | some factory =>
    by_cases hread :
        0 < (self._socket.read (self._buffer.reserve c.SNOOP_SIZE).free).res ∨
        is_blocked c (self._socket.read (self._buffer.reserve c.SNOOP_SIZE).free).res
          (self._socket.read (self._buffer.reserve c.SNOOP_SIZE).free).socket.errno = true
    · obtain ⟨buffer, hdata, hstep⟩ :=
        MyCryptoSocket.handshake_some c self factory _ hf rfl hread
      rw [hstep] at h
      unfold MyCryptoSocket.classify at h
      simp only [SmartBuffer.obtain] at h
      by_cases hlt : buffer.data.length < c.SNOOP_SIZE
      · rw [if_pos hlt] at h
        simp at h
      · rw [if_neg hlt] at h
        by_cases htls : looksLikeTlsToMe buffer.data = true
        · refine ⟨buffer.data,
            (self._socket.read (self._buffer.reserve c.SNOOP_SIZE).free).socket.incoming,
            htls, ?_⟩
          unfold MyCryptoSocket.pending
          rw [hdata]
          split
          · rw [List.append_assoc, SocketHandle.read_data_incoming]
          · rename_i hnp
            have hneg := is_blocked_neg c _ _ (hread.resolve_left hnp)
            rw [SocketHandle.read_neg_incoming _ _ hneg]
        · rw [if_neg htls] at h
          simp at h
    · unfold MyCryptoSocket.handshake at h
      rw [hf] at h
      simp only at h
      have hnp : ¬ 0 < (self._socket.read (self._buffer.reserve c.SNOOP_SIZE).free).res :=
        fun hp => hread (Or.inl hp)
      have hnb : is_blocked c (self._socket.read (self._buffer.reserve c.SNOOP_SIZE).free).res
          (self._socket.read (self._buffer.reserve c.SNOOP_SIZE).free).socket.errno = false := by
        cases hb : is_blocked c (self._socket.read (self._buffer.reserve c.SNOOP_SIZE).free).res
          (self._socket.read (self._buffer.reserve c.SNOOP_SIZE).free).socket.errno
        · rfl
        · exact absurd (Or.inr hb) hread
      rw [if_neg hnp, hnb] at h
      simp at h

/-- The handshake loop of a Detecting socket ends with `DONE` only on the
not-TLS verdict. -/
theorem handshakeUntilDone_verdict (c : Constants) (fuel : Nat) :
    ∀ s s' : MyCryptoSocket, handshakeUntilDone c fuel s = some s' → s._factory ≠ none →
      c.SNOOP_SIZE ≤ s'._buffer.data.length ∧ looksLikeTlsToMe s'._buffer.data = false ∧
      s'._factory = none := by
  induction fuel with
  | zero => intro s s' h; simp [handshakeUntilDone] at h
  | succ fuel ih =>
    intro s s' h hne
    unfold handshakeUntilDone at h
    split at h
    · rename_i s₁ hstep
      simp only [Option.some.injEq] at h
      subst h
      rcases MyCryptoSocket.handshake_detecting c s s₁ _ hstep with
        ⟨hnone, _⟩ | ⟨factory, rd, buffer, _, _, _, hbuf, hcase⟩
      · exact absurd hnone hne
      · rcases hcase with ⟨hr, _⟩ | ⟨_, ⟨hr, _⟩ | ⟨_, hK, hnot, hnone⟩⟩
        · exact absurd hr (by decide)
        · exact absurd hr (by decide)
        · rw [hbuf]; exact ⟨hK, hnot, hnone⟩
    · rename_i s₁ hstep
      rcases MyCryptoSocket.handshake_detecting c s s₁ _ hstep with
        ⟨_, hr, _⟩ | ⟨factory, rd, buffer, _, _, _, _, hcase⟩
      · exact absurd hr (by decide)
      · rcases hcase with ⟨hr, _⟩ | ⟨_, ⟨_, _, hsome⟩ | ⟨hr, _⟩⟩
        · exact absurd hr (by decide)
        · exact ih s₁ s' h (by rw [hsome]; simp)
        · exact absurd hr (by decide)
    · simp at h

/-- No `handshake()` call upgrades a socket whose pending bytes are the five
bytes of scenario B. -/
theorem handshakeTimes_httpGet (c : Constants) (n : Nat) :
    ∀ s : MyCryptoSocket, s.pending = httpGet → (handshakeTimes c n s).isSome = true := by
  induction n with
  | zero => intro s _; rfl
  | succ n ih =>
    intro s hpend
    unfold handshakeTimes
    cases hstep : s.handshake c with
    | mk r slot =>
      cases slot with
      | detecting s₁ =>
        simp only
        exact ih s₁ ((MyCryptoSocket.handshake_pending c s s₁ r hstep).trans hpend)
      | tls e t =>
        obtain ⟨staged, rest, htls, hjoin⟩ := MyCryptoSocket.handshake_tls c s r e t hstep
        obtain ⟨tl, htl⟩ := looksLikeTlsToMe_head staged htls
        rw [hpend, htl] at hjoin
        simp [httpGet] at hjoin

/-- The first `read` after the handshake, with room for five bytes, on a socket
that has staged the first `m > 0` bytes of scenario B. -/
theorem MyCryptoSocket.read_httpGet (s : MyCryptoSocket) (len : Nat) (hlen : 5 ≤ len)
    (hpend : s.pending = httpGet) (hpos : 0 < s._buffer.data.length) :
    s._buffer.data.length ≤ 5 ∧
    s._buffer.data = httpGet.take s._buffer.data.length ∧
    (s.read len).res = (s._buffer.data.length : Nat) ∧
    (s.read len).delivered = httpGet.take s._buffer.data.length ∧
    (s.read len).self.pending = httpGet.drop s._buffer.data.length := by
  have hle : s._buffer.data.length ≤ 5 := by
    have := congrArg List.length hpend
    simp only [MyCryptoSocket.pending, List.length_append, httpGet, List.length_cons,
      List.length_nil] at this
    omega
  have htake : httpGet.take s._buffer.data.length = s._buffer.data := by
    rw [← hpend]; exact List.take_left' rfl
  have hdrop : httpGet.drop s._buffer.data.length = s._socket.incoming := by
    rw [← hpend]; exact List.drop_left' rfl
  have hmin : min len s._buffer.data.length = s._buffer.data.length := by omega
  have hrd := MyCryptoSocket.read_staged s len (by omega) (by omega)
  rw [hmin] at hrd
  rw [hrd, htake, hdrop]
  simp [IoResult.delivered, MyCryptoSocket.pending, SmartBuffer.evict, hle]

/-- C13, the claim as stated fails: with `SNOOP_SIZE = 3`, when the raw
connection hands out the first three of the five bytes to the first raw read,
`handshake()` answers `DONE` with three bytes staged, and the first `read` with
room for five bytes returns 3 and delivers `47 45 54` only. -/
theorem read_after_fragmented_get :
    MyCryptoSocket.create linux3 (SocketHandle.connected httpGet [ReadOutcome.data 2])
        (some needyEngine) =
      some (detectingSocket httpGet [ReadOutcome.data 2]) ∧
    handshakeUntilDone linux3 1 (detectingSocket httpGet [ReadOutcome.data 2]) =
      some plainSocket ∧
    (plainSocket.read 5).res = 3 ∧
    (plainSocket.read 5).delivered = [0x47, 0x45, 0x54] ∧
    (plainSocket.read 5).delivered ≠ httpGet :=
  ⟨rfl, rfl, by decide, by decide, by decide⟩

theorem SocketHandle.read_script (s : SocketHandle) (len : Nat) :
    (s.read len).socket.script = s.script.tail := by
  unfold SocketHandle.read
  split <;> rename_i h <;> rw [h] <;> rfl

/-- A raw read on a connection whose script holds no hard error, with bytes
still to come and room for one byte or more, delivers bytes or would block. -/
theorem SocketHandle.read_benign (c : Constants) (s : SocketHandle) (len : Nat)
    (hscript : ∀ e, ReadOutcome.error e ∈ s.script → e = c.EWOULDBLOCK ∨ e = c.EAGAIN)
    (hinc : s.incoming ≠ []) (hlen : 0 < len) :
    0 < (s.read len).res ∨ is_blocked c (s.read len).res (s.read len).socket.errno = true := by
  have hpos : 0 < s.incoming.length := List.length_pos.mpr hinc
  unfold SocketHandle.read
  split
  · rename_i e rest h
    right
    have he := hscript e (by rw [h]; exact List.mem_cons_self _ _)
    unfold is_blocked
    rcases he with he | he <;> simp [he]
  · rename_i k rest h
    left
    simp only [List.length_take]
    omega
  · left
    simp only [List.length_take]
    omega

/-- Scenario B with any fragmentation: when no raw read fails hard, the
handshake loop of a Detecting socket with fewer than three of the five bytes
staged ends with `DONE`, given one call more than the script has entries. -/
theorem handshakeUntilDone_httpGet (c : Constants) (hK : c.SNOOP_SIZE = 3) (fuel : Nat) :
    ∀ s : MyCryptoSocket, s._factory ≠ none → s.pending = httpGet →
      s._buffer.data.length < 3 →
      (∀ e, ReadOutcome.error e ∈ s._socket.script → e = c.EWOULDBLOCK ∨ e = c.EAGAIN) →
      s._socket.script.length < fuel →
      ∃ s', handshakeUntilDone c fuel s = some s' := by
  induction fuel with
  | zero => intro _ _ _ _ _ h; omega
  | succ fuel ih =>
    intro s hne hpend hshort hscript hfuel
    have hinc5 : s._buffer.data.length + s._socket.incoming.length = 5 := by
      have := congrArg List.length hpend
      simpa [MyCryptoSocket.pending, httpGet] using this
    have hfree : 3 ≤ (s._buffer.reserve c.SNOOP_SIZE).free := by
      simp only [SmartBuffer.reserve]; omega
    cases hstep : s.handshake c with
    | mk r slot =>
      cases slot with
      | tls e t =>
        obtain ⟨staged, rest, htls, hjoin⟩ := MyCryptoSocket.handshake_tls c s r e t hstep
        obtain ⟨tl, htl⟩ := looksLikeTlsToMe_head staged htls
        rw [hpend, htl] at hjoin
        simp [httpGet] at hjoin
      | detecting s₁ =>
        rcases MyCryptoSocket.handshake_detecting c s s₁ r hstep with
          ⟨hnone, _⟩ | ⟨factory, rd, buffer, _, hrd, hsock, hbuf, hcase⟩
        · exact absurd hnone hne
        · have hbenign := SocketHandle.read_benign c s._socket
            (s._buffer.reserve c.SNOOP_SIZE).free hscript
            (by intro hnil; rw [hnil] at hinc5; simp at hinc5; omega) (by omega)
          rw [← hrd] at hbenign
          rcases hcase with ⟨_, hnp, hnb, _⟩ | ⟨hread, hverdict⟩
          · rcases hbenign with hp | hb
            · exact absurd hp hnp
            · rw [hb] at hnb; exact absurd hnb (by decide)
          · rcases hverdict with ⟨hr, hlt, hsome⟩ | ⟨hr, _⟩
            · subst hr
              have hscript₁ : s₁._socket.script = s._socket.script.tail := by
                rw [hsock, hrd]; exact SocketHandle.read_script _ _
              have hnonempty : s._socket.script ≠ [] := by
                intro hnil
                have hdata : rd.data = s._socket.incoming.take
                    (s._buffer.reserve c.SNOOP_SIZE).free := by
                  rw [hrd]; unfold SocketHandle.read; rw [hnil]
                have hres : rd.res = ((rd.data.length : Nat) : Int) := by
                  rw [hrd]; unfold SocketHandle.read; rw [hnil]
                have hlen3 : 3 ≤ rd.data.length := by
                  rw [hdata, List.length_take]; omega
                rcases hread with ⟨_, hb⟩ | ⟨hnp, _⟩
                · rw [hb] at hlt
                  simp only [SmartBuffer.commit, SmartBuffer.reserve, List.length_append,
                    List.length_take] at hlt
                  rw [hres, Int.toNat_ofNat] at hlt
                  omega
                · rw [hres] at hnp; omega
              have hfuel₁ : s₁._socket.script.length < fuel := by
                rw [hscript₁, List.length_tail]
                have := List.length_pos.mpr hnonempty
                omega
              obtain ⟨s', hs'⟩ := ih s₁ (by rw [hsome]; simp)
                ((MyCryptoSocket.handshake_pending c s s₁ _ hstep).trans hpend)
                (by rw [hbuf]; omega)
                (fun e he => hscript e (List.mem_of_mem_tail (by rw [← hscript₁]; exact he)))
                hfuel₁
              exact ⟨s', by simp only [handshakeUntilDone, hstep]; exact hs'⟩
            · subst hr
              exact ⟨s₁, by simp only [handshakeUntilDone, hstep]⟩

/-- C13, amended: the peer sends `47 45 54 20 2F` and `SNOOP_SIZE = 3`.  No
`handshake()` call upgrades, however the bytes are fragmented.  Whenever the
handshake loop ends with `DONE`, the factory is gone (not-TLS verdict) and the
first `m` of the five bytes are staged, `3 ≤ m ≤ 5`; the first `read` with room
for five bytes or more then returns `m` and delivers exactly these `m` bytes,
the other bytes staying pending for the following reads.  The handshake loop
does end with `DONE`, in this way, for every fragmentation with would-block
results in between (no raw read failing hard), given one call more than the
raw connection has scripted reads.  When the first raw read hands out all five
bytes, the first `handshake()` call answers `DONE` and this `read` returns
exactly `47 45 54 20 2F`. -/
theorem scenario_B_read (c : Constants) (socket : SocketHandle) (engine : TlsCryptoEngine)
    (s₀ : MyCryptoSocket) (len : Nat)
    (hK : c.SNOOP_SIZE = 3) (hsent : socket.incoming = httpGet)
    (hnew : MyCryptoSocket.create c socket (some engine) = some s₀)
    (hlen : 5 ≤ len) :
    (∀ n, (handshakeTimes c n s₀).isSome = true) ∧
    (∀ fuel s, handshakeUntilDone c fuel s₀ = some s →
      s._factory = none ∧
      ∃ m, 3 ≤ m ∧ m ≤ 5 ∧ s._buffer.data = httpGet.take m ∧
        (s.read len).res = (m : Nat) ∧ (s.read len).delivered = httpGet.take m ∧
        (s.read len).self.pending = httpGet.drop m) ∧
    ((∀ e, ReadOutcome.error e ∈ socket.script → e = c.EWOULDBLOCK ∨ e = c.EAGAIN) →
      ∀ fuel, socket.script.length < fuel →
        ∃ s, handshakeUntilDone c fuel s₀ = some s ∧ s._factory = none ∧
          ∃ m, 3 ≤ m ∧ m ≤ 5 ∧ s._buffer.data = httpGet.take m ∧
            (s.read len).res = (m : Nat) ∧ (s.read len).delivered = httpGet.take m ∧
            (s.read len).self.pending = httpGet.drop m) ∧
    ((socket.read 4096).data = httpGet →
      ∀ fuel, ∃ s, handshakeUntilDone c (fuel + 1) s₀ = some s ∧
        s._buffer.data = httpGet ∧ (s.read len).res = 5 ∧
        (s.read len).delivered = httpGet) := by
  unfold MyCryptoSocket.create at hnew
  split at hnew
  · rename_i hKK
    simp only [Option.some.injEq] at hnew
    subst hnew
    have hpend₀ : MyCryptoSocket.pending
        { _socket := socket, _factory := some engine, _buffer := SmartBuffer.create 4096 } =
        httpGet := by
      simp [MyCryptoSocket.pending, SmartBuffer.create, hsent]
    have part2 : ∀ fuel s, handshakeUntilDone c fuel
        { _socket := socket, _factory := some engine, _buffer := SmartBuffer.create 4096 } =
          some s →
        s._factory = none ∧
        ∃ m, 3 ≤ m ∧ m ≤ 5 ∧ s._buffer.data = httpGet.take m ∧
          (s.read len).res = (m : Nat) ∧ (s.read len).delivered = httpGet.take m ∧
          (s.read len).self.pending = httpGet.drop m := by
      intro fuel s hdone
      obtain ⟨hge, _, hnone⟩ := handshakeUntilDone_verdict c fuel _ s hdone (by simp)
      obtain ⟨n, hn⟩ := handshakeUntilDone_times c fuel _ s hdone
      obtain ⟨_, _, hpend, _⟩ := handshakeTimes_staging c hKK.2 n _ s hn rfl (fun _ => hKK.1)
      rw [hpend₀] at hpend
      obtain ⟨h1, h2, h3, h4, h5⟩ :=
        MyCryptoSocket.read_httpGet s len hlen hpend (by omega)
      exact ⟨hnone, s._buffer.data.length, by omega, h1, h2, h3, h4, h5⟩
    refine ⟨fun n => handshakeTimes_httpGet c n _ hpend₀, part2, ?_, ?_⟩
    · intro hscript fuel hfuel
      obtain ⟨s, hs⟩ := handshakeUntilDone_httpGet c hK fuel
        { _socket := socket, _factory := some engine, _buffer := SmartBuffer.create 4096 }
        (by simp) hpend₀ (by simp [SmartBuffer.create]) hscript hfuel
      obtain ⟨hnone, hm⟩ := part2 fuel s hs
      exact ⟨s, hs, hnone, hm⟩
    intro hall fuel
    have hres : 0 < (socket.read 4096).res := by
      rcases socket.read_cases 4096 with ⟨_, h2, _⟩ | ⟨k, h1, h2, _⟩
      · rw [h2] at hall; simp [httpGet] at hall
      · rw [h1, ← h2, hall]; decide
    have hfree : ((SmartBuffer.create 4096).reserve c.SNOOP_SIZE).free = 4096 := by
      simp only [SmartBuffer.reserve, SmartBuffer.create]; omega
    obtain ⟨buffer, hdata, hstep⟩ :=
      MyCryptoSocket.handshake_some c
        { _socket := socket, _factory := some engine, _buffer := SmartBuffer.create 4096 }
        engine (socket.read 4096) rfl (by rw [hfree]) (Or.inl hres)
    rw [if_pos hres, hall] at hdata
    have hdata' : buffer.data = httpGet := by rw [hdata]; rfl
    have hdone : handshakeUntilDone c (fuel + 1)
        { _socket := socket, _factory := some engine, _buffer := SmartBuffer.create 4096 } =
        some { _socket := (socket.read 4096).socket, _factory := none, _buffer := buffer } := by
      unfold handshakeUntilDone
      rw [hstep]
      unfold MyCryptoSocket.classify
      simp only [SmartBuffer.obtain, hdata']
      rw [if_neg (by rw [hK]; decide), if_neg (by decide)]
    obtain ⟨_, m, _, _, hm, hr1, hr2, _⟩ := part2 (fuel + 1) _ hdone
    have hm5 : m = 5 := by
      have := congrArg List.length hm
      simp only [hdata', httpGet, List.length_cons, List.length_nil, List.length_take] at this
      omega
    subst hm5
    exact ⟨_, hdone, hdata', hr1, hr2⟩
  · exact absurd hnew (by simp)

theorem scenario_B_read_witness :
    ∃ s, handshakeUntilDone linux3 5
        (detectingSocket httpGet
          [ReadOutcome.data 0, ReadOutcome.error 11, ReadOutcome.data 0, ReadOutcome.data 0]) =
        some s ∧ s._factory = none ∧
      ∃ m, 3 ≤ m ∧ m ≤ 5 ∧ s._buffer.data = httpGet.take m ∧
        (s.read 5).res = (m : Nat) ∧ (s.read 5).delivered = httpGet.take m ∧
        (s.read 5).self.pending = httpGet.drop m :=
  (scenario_B_read linux3
    (SocketHandle.connected httpGet
      [ReadOutcome.data 0, ReadOutcome.error 11, ReadOutcome.data 0, ReadOutcome.data 0])
    needyEngine _ 5 rfl rfl rfl (by decide)).2.2.1
    (by simp [SocketHandle.connected, linux3]) 5 (by decide)

/-! ## C6: read -/

/-- No `read` or `drain` call adds to the staging buffer. -/
theorem runCalls_staged_le (calls : List Call) :
    ∀ s : MyCryptoSocket, s._buffer.data.length < 2147483648 →
      (runCalls calls s).self._buffer.data.length ≤ s._buffer.data.length := by
  induction calls with
  | nil => intro s _; simp [runCalls]
  | cons call rest ih =>
    intro s hint
    have hstep : (call.run s).self._buffer.data.length ≤ s._buffer.data.length := by
      cases call with
      | drain len => exact (MyCryptoSocket.drain_pending s len).2
      | read len =>
        simp only [Call.run]
        by_cases h : 0 < min len s._buffer.data.length
        · rw [MyCryptoSocket.read_staged s len h (by omega)]
          simp only [SmartBuffer.evict, List.length_drop]
          omega
        · rw [MyCryptoSocket.read_unstaged s len (by omega)]
    simp only [runCalls]
    exact le_trans (ih (call.run s).self (by omega)) hstep

/-- C6: on every socket that the owner has constructed and brought to its
state by `handshake()` calls followed by `read`/`drain` calls, `read(buf, len)`
with `len` at least `min_read_buffer_size()`: when bytes are staged it returns
`min(len, staged)`, delivers the first that many staged bytes in order, keeps
the remainder staged for the next call and performs no read on the raw
connection; when the staging buffer is empty it performs one read of `len`
bytes on the raw connection and returns its result and bytes unchanged. -/
theorem read_spec (c : Constants) (socket : SocketHandle) (tls_engine : Option TlsCryptoEngine)
    (s₀ s₁ self : MyCryptoSocket) (n : Nat) (calls : List Call) (len : Nat)
    (hnew : MyCryptoSocket.create c socket tls_engine = some s₀)
    (hrun : handshakeTimes c n s₀ = some s₁)
    (hself : self = (runCalls calls s₁).self)
    (hlen : self.min_read_buffer_size ≤ len) :
    (self._buffer.data ≠ [] →
      (self.read len).res = (min len self._buffer.data.length : Nat) ∧
      (self.read len).buf = self._buffer.data.take (min len self._buffer.data.length) ∧
      (self.read len).delivered = self._buffer.data.take (min len self._buffer.data.length) ∧
      (self.read len).self._buffer.data =
        self._buffer.data.drop (min len self._buffer.data.length) ∧
      (self.read len).self._socket = self._socket) ∧
    (self._buffer.data = [] →
      (self.read len).res = (self._socket.read len).res ∧
      (self.read len).buf = (self._socket.read len).data ∧
      (self.read len).self._socket = (self._socket.read len).socket ∧
      (self.read len).self._buffer = self._buffer) ∧
    (self.read len).self._factory = self._factory := by
  have hlen1 : 1 ≤ len := hlen
  have hbound : self._buffer.data.length ≤ 4096 := by
    unfold MyCryptoSocket.create at hnew
    split at hnew
    · rename_i hK
      simp only [Option.some.injEq] at hnew
      subst hnew
      obtain ⟨hsum, _, _, _⟩ := handshakeTimes_staging c hK.2 n _ s₁ hrun rfl (fun _ => hK.1)
      have := runCalls_staged_le calls s₁ (by omega)
      rw [hself]
      omega
    · exact absurd hnew (by simp)
  by_cases h : self._buffer.data = []
  · have h0 : min len self._buffer.data.length = 0 := by rw [h]; simp
    rw [MyCryptoSocket.read_unstaged self len h0]
    exact ⟨fun hne => absurd h hne, fun _ => ⟨rfl, rfl, rfl, rfl⟩, rfl⟩
  · have hpos : 0 < self._buffer.data.length := List.length_pos.mpr h
    have hframe : 0 < min len self._buffer.data.length := by omega
    rw [MyCryptoSocket.read_staged self len hframe (by omega)]
    refine ⟨fun _ => ⟨rfl, rfl, ?_, rfl, rfl⟩, fun h0 => absurd h0 h, rfl⟩
    simp only [IoResult.delivered, Int.toNat_ofNat, List.take_take, Nat.min_self]

theorem read_spec_witness :
    ((runCalls [Call.drain 1] plainSocket).self.read 5).res = 2 ∧
    ((runCalls [Call.drain 1] plainSocket).self.read 5).delivered = [0x45, 0x54] ∧
    ((runCalls [Call.drain 1] plainSocket).self.read 5).self._buffer.data = [] ∧
    ((runCalls [Call.drain 1] plainSocket).self.read 5).self._socket = plainSocket._socket := by
  obtain ⟨h1, -, h3, h4, h5⟩ :=
    (read_spec linux3 (SocketHandle.connected httpGet [ReadOutcome.data 2]) (some needyEngine)
      _ plainSocket _ 1 [Call.drain 1] 5 rfl rfl rfl (by decide)).1 (by decide)
  exact ⟨h1, h3, h4, h5⟩

end vespalib

namespace gentestdocs

open vespalib (string)

/-! ## C16: splitArg -/

theorem scan_none (c : Char) (l : List Char) :
    ∀ i, string.scan c l i = none → c ∉ l := by
  induction l with
  | nil => intro _ _; simp
  | cons x xs ih =>
    intro i h
    unfold string.scan at h
    by_cases hx : x = c
    · rw [if_pos hx] at h; simp at h
    · rw [if_neg hx] at h
      have := ih (i + 1) h
      simp only [List.mem_cons, not_or]
      exact ⟨fun hc => hx hc.symm, this⟩

theorem scan_some (c : Char) (l : List Char) :
    ∀ i j, string.scan c l i = some j →
      ∃ pre post, l = pre ++ c :: post ∧ c ∉ pre ∧ j = i + pre.length := by
  induction l with
  | nil => intro _ _ h; simp [string.scan] at h
  | cons x xs ih =>
    intro i j h
    unfold string.scan at h
    by_cases hx : x = c
    · rw [if_pos hx] at h
      simp only [Option.some.injEq] at h
      exact ⟨[], xs, by rw [hx]; rfl, by simp, by simp [h]⟩
    · rw [if_neg hx] at h
      obtain ⟨pre, post, hl, hpre, hj⟩ := ih (i + 1) j h
      refine ⟨x :: pre, post, by rw [hl]; rfl, ?_, by simp only [List.length_cons]; omega⟩
      simp only [List.mem_cons, not_or]
      exact ⟨fun hc => hx hc.symm, hpre⟩

/-- What the loop adds to `argv` from position `pos` on. -/
theorem splitArg_loop_spec (arg : string) (fuel : Nat) :
    ∀ (pos : Nat) (argv : List string), pos ≤ arg.length → arg.length - pos < fuel →
      ∃ more : List string,
        splitArg.loop arg fuel pos argv = some (argv ++ more) ∧ more ≠ [] ∧
        more.length = (arg.drop pos).count ',' + 1 ∧
        (∀ e ∈ more, ',' ∉ e) ∧
        [','].intercalate more = arg.drop pos := by
  induction fuel with
  | zero => intro _ _ _ h; omega
  | succ fuel ih =>
    intro pos argv hpos hfuel
    unfold splitArg.loop
    cases hfind : string.find arg ',' pos with
    | none =>
      unfold string.find at hfind
      have hno := scan_none ',' _ pos hfind
      refine ⟨[arg.drop pos], rfl, by simp, ?_, ?_, ?_⟩
      · simp [List.count_eq_zero.mpr hno]
      · intro e he
        simp only [List.mem_singleton] at he
        rw [he]; exact hno
      · simp [List.intercalate, List.intersperse]
    | some found =>
      unfold string.find at hfind
      obtain ⟨pre, post, hl, hpre, hfound⟩ := scan_some ',' _ pos found hfind
      have hlen : arg.length - pos = pre.length + 1 + post.length := by
        have := congrArg List.length hl
        simp only [List.length_drop, List.length_append, List.length_cons] at this
        omega
      have hpiece : string.substr arg pos (some (found - pos)) = pre := by
        simp only [string.substr]
        rw [hl, hfound, Nat.add_sub_cancel_left]
        exact List.take_left' rfl
      have hrest : arg.drop (found + 1) = post := by
        have h1 : found + 1 = pos + (pre.length + 1) := by omega
        rw [h1, ← List.drop_drop, hl,
          show pre ++ ',' :: post = (pre ++ [',']) ++ post by simp]
        exact List.drop_left' (by simp)
      obtain ⟨more, hloop, hne, hcount, hmem, hjoin⟩ :=
        ih (found + 1) (argv ++ [pre]) (by omega) (by omega)
      simp only
      rw [hpiece, hloop]
      refine ⟨pre :: more, by simp, by simp, ?_, ?_, ?_⟩
      · rw [hl, List.count_append, List.count_cons_self, List.count_eq_zero.mpr hpre,
          List.length_cons, hcount, hrest]
        omega
      · intro e he
        rcases List.mem_cons.mp he with rfl | he'
        · exact hpre
        · exact hmem e he'
      · cases more with
        | nil => exact absurd rfl hne
        | cons y ys =>
          have hstep : [','].intercalate (pre :: y :: ys) =
              pre ++ [','] ++ [','].intercalate (y :: ys) := by
            simp [List.intercalate, List.intersperse]
          rw [hstep, hjoin, hrest, hl]
          simp

/-- C16: `splitArg(arg)` returns for every string `arg`; the result is a
non-empty list with one element more than `arg` has `','` characters, no
element contains a `','`, and the elements joined with `','` between them are
`arg` again; the empty string yields one empty element. -/
theorem splitArg_spec (arg : string) :
    (∃ argv : List string,
      splitArg arg = some argv ∧ argv ≠ [] ∧
      argv.length = arg.count ',' + 1 ∧
      (∀ e ∈ argv, ',' ∉ e) ∧
      [','].intercalate argv = arg) ∧
    splitArg [] = some [[]] := by
  refine ⟨?_, rfl⟩
  obtain ⟨more, hloop, hne, hcount, hmem, hjoin⟩ :=
    splitArg_loop_spec arg (arg.length + 1) 0 [] (Nat.zero_le _) (by omega)
  exact ⟨more, by simpa [splitArg] using hloop, hne, by simpa using hcount, hmem,
    by simpa using hjoin⟩

end gentestdocs
